import Mathlib

/-!
Verification of the NANKANUMAI scraping bot (src/keiba_bot.py, src/main.py).

Python strings are modelled as `List Char`; Python dicts keyed by strings are
modelled as association lists with dict-style upsert (overwriting keeps the
original position, as CPython dicts do).  Regular-expression searches are
modelled by explicit leftmost-match scanners that mirror the backtracking
behaviour of the concrete patterns used in the source.  The character class
of the `\s` escape and of `str.strip` is modelled by the common whitespace
characters (space, tab, newline, carriage return, vertical tab, form feed and
the ideographic space U+3000); `\d` and `str.isdigit` are modelled by the
ASCII digits.  Network and browser effects are modelled by oracle inputs:
each external fetch becomes an explicit argument holding the data the page
produced (or a marker that the call raised).
-/

-- ==================================================
-- Generic string helpers (Python semantics)
-- ==================================================

/-- Whitespace class used for the `\s` escape and `str.strip`. -/
def pyIsSpace (c : Char) : Bool :=
  c = ' ' || c = '\t' || c = '\n' || c = '\r' || c = Char.ofNat 11 || c = Char.ofNat 12 || c = '　'

/-- Python `str.strip()`. -/
def pyStrip (l : List Char) : List Char :=
  ((l.dropWhile pyIsSpace).reverse.dropWhile pyIsSpace).reverse

/-- One step of `re.sub(r"\s+", " ", s)`: the flag records whether the previous
character was whitespace (so further whitespace of the same run is dropped). -/
def collapseWsGo : Bool → List Char → List Char
  | _, [] => []
  | inRun, c :: rest =>
    if pyIsSpace c then
      if inRun then collapseWsGo true rest
      else ' ' :: collapseWsGo true rest
    else c :: collapseWsGo false rest

/-- `re.sub(r"\s+", " ", s)`. -/
def collapseWs (l : List Char) : List Char := collapseWsGo false l

/-- Python substring test `needle in hay`. -/
def subOf : List Char → List Char → Bool
  | n, [] => n == []
  | n, c :: t => ((c :: t).take n.length == n) || subOf n t

/-- Python `str.isdigit()` (modelled over ASCII digits): nonempty and all digits. -/
def pyIsDigitStr (l : List Char) : Bool := !l.isEmpty && l.all Char.isDigit

/-- Python `int()` on a digit string. -/
def digitsToNat (l : List Char) : Nat := l.foldl (fun a c => a * 10 + (c.toNat - 48)) 0

/-- Decimal rendering of a natural number, with structural fuel so that it
reduces definitionally (the fuel `n + 1` always suffices). -/
def natToDecAux : Nat → Nat → List Char
  | 0, _ => []
  | fuel + 1, n =>
    if n < 10 then [Char.ofNat (48 + n)]
    else natToDecAux fuel (n / 10) ++ [Char.ofNat (48 + n % 10)]

/-- Python `str()` of a nonnegative integer. -/
def natToDec (n : Nat) : List Char := natToDecAux (n + 1) n

/-- Python `str()` of an integer (sign handling for `_format_rate`). -/
def intToDec (i : Int) : List Char :=
  if i < 0 then '-' :: natToDec i.natAbs else natToDec i.toNat

/-- Python `str.zfill(2)` on an (unsigned) string. -/
def zfill2 (s : List Char) : List Char :=
  if 2 ≤ s.length then s else List.replicate (2 - s.length) '0' ++ s

/-- Dict-style upsert: overwrite in place when the key exists, append otherwise
(CPython dict assignment keeps the first-insertion position of a key). -/
def dictUpsert {α : Type} (m : List (List Char × α)) (k : List Char) (v : α) :
    List (List Char × α) :=
  if m.any (fun kv => kv.1 == k) then
    m.map (fun kv => if kv.1 == k then (kv.1, v) else kv)
  else m ++ [(k, v)]

/-- Dict lookup (`d.get(k)`). -/
def dictFind {α : Type} (m : List (List Char × α)) (k : List Char) : Option α :=
  (m.find? (fun kv => kv.1 == k)).map (fun kv => kv.2)

/-- `"sep".join(parts)`. -/
def joinWith (sep : List Char) : List (List Char) → List Char
  | [] => []
  | [p] => p
  | p :: q :: rest => p ++ sep ++ joinWith sep (q :: rest)

-- ==================================================
-- normalize_name  (keiba_bot.py lines 209-223)
-- ==================================================

/-- The character class of `re.sub(r"[ 　▲△☆◇★\d\.]+", "", abbrev)`. -/
def isStrippedChar (c : Char) : Bool :=
  c = ' ' || c = '　' || c = '▲' || c = '△' || c = '☆' || c = '◇' || c = '★' ||
  c = '.' || c.isDigit

/-- The cleaning step of `normalize_name`. -/
def cleanAbbrev (l : List Char) : List Char := l.filter (fun c => !isStrippedChar c)

/-- Sort key `len(full) - len(clean)` used on candidates. -/
def diffLen (clean full : List Char) : Int := (full.length : Int) - (clean.length : Int)

/-- `all(c in full for c in clean)`. -/
def containsAllChars (clean full : List Char) : Bool := clean.all (fun c => full.contains c)

/-- `candidates.sort(key=...)` (a stable sort) followed by `candidates[0]`:
the first candidate realising the minimal key. -/
def pickBest (clean : List Char) : List (List Char) → Option (List Char)
  | [] => none
  | f :: fs =>
    match pickBest clean fs with
    | none => some f
    | some b => if diffLen clean f ≤ diffLen clean b then some f else some b

/-- `normalize_name(abbrev, full_list)`. -/
def normalize_name (abb : List Char) (full_list : List (List Char)) : List Char :=
  if abb = [] then []
  else
    let clean := cleanAbbrev abb
    if clean = [] then []
    else if full_list = [] then clean
    else if clean ∈ full_list then clean
    else
      match pickBest clean (full_list.filter (containsAllChars clean)) with
      | some best => best
      | none => clean

-- ==================================================
-- get_kb_url_id  (keiba_bot.py lines 250-251)
-- ==================================================

/-- `get_kb_url_id(year, month, day, place_code, nichi, race_num)`: the
f-string concatenating `year` and the zfilled renderings of the other
arguments, with month rendered twice. -/
def get_kb_url_id (year month day place_code nichi race_num : Nat) : List Char :=
  natToDec year ++ zfill2 (natToDec month) ++ zfill2 (natToDec place_code) ++
  zfill2 (natToDec nichi) ++ zfill2 (natToDec race_num) ++ zfill2 (natToDec month) ++
  zfill2 (natToDec day)

-- ==================================================
-- PLACE_MAP and _normalize_place_token  (keiba_bot.py lines 307-320)
-- ==================================================

/-- `PLACE_MAP`, in source (dict-literal) order. -/
def PLACE_MAP : List (List Char × List Char) :=
  [(("船").data, ("船橋").data), (("船橋").data, ("船橋").data),
   (("大").data, ("大井").data), (("大井").data, ("大井").data),
   (("川").data, ("川崎").data), (("川崎").data, ("川崎").data),
   (("浦").data, ("浦和").data), (("浦和").data, ("浦和").data),
   (("門").data, ("門別").data), (("門別").data, ("門別").data)]

/-- The five canonical Nankan place names (the value set of `PLACE_MAP`). -/
def canonicalPlaces : List (List Char) :=
  [("船橋").data, ("大井").data, ("川崎").data, ("浦和").data, ("門別").data]

/-- `_normalize_place_token(raw_p, fallback_place)`. -/
def _normalize_place_token (raw_p fallback_place : List Char) : List Char :=
  if raw_p = [] then fallback_place
  else
    let s := pyStrip ((pyStrip (collapseWs raw_p)).filter (fun c => c ≠ '着'))
    match PLACE_MAP.find? (fun kv => !kv.1.isEmpty && subOf kv.1 s) with
    | some kv => kv.2
    | none =>
      match PLACE_MAP.find? (fun kv => kv.1 == s.take 1) with
      | some kv => kv.2
      | none => fallback_place

-- ==================================================
-- get_nankan_kai_nichi  (keiba_bot.py lines 225-248)
-- ==================================================

/-- Leftmost match of `re.search(r"第\s*(\d+)\s*回", text)` after a `第`:
whitespace, a nonempty digit run, whitespace, `回`.  (Backtracking inside the
digit run cannot help, since `\s*` cannot consume digits.) -/
def matchKaiAfter (l : List Char) : Option Nat :=
  let l1 := l.dropWhile pyIsSpace
  let ds := l1.takeWhile Char.isDigit
  if ds.isEmpty then none
  else
    match (l1.dropWhile Char.isDigit).dropWhile pyIsSpace with
    | '回' :: _ => some (digitsToNat ds)
    | _ => none

/-- Scanner for `re.search(r"第\s*(\d+)\s*回", text)`. -/
def findKai : List Char → Option Nat
  | [] => none
  | c :: rest =>
    if c = '第' then
      match matchKaiAfter rest with
      | some n => some n
      | none => findKai rest
    else findKai rest

/-- Scanner for `re.search(r"(\d+)\s*" ++ lit, text)`: the first maximal digit
run that is followed (after whitespace) by the literal `lit`.  The flag records
whether we are inside an already-rejected digit run (a suffix of a rejected run
cannot match, because `\s*` cannot consume the preceding digits). -/
def findRunThenGo (lit : List Char) : Bool → List Char → Option (List Char)
  | _, [] => none
  | inRun, c :: rest =>
    if c.isDigit then
      if inRun then findRunThenGo lit true rest
      else
        let run := c :: rest.takeWhile Char.isDigit
        let after := (rest.dropWhile Char.isDigit).dropWhile pyIsSpace
        if after.take lit.length == lit then some run
        else findRunThenGo lit true rest
    else findRunThenGo lit false rest

/-- Scanner for `re.search(r"(\d+)\s*月", text)`. -/
def findMon (l : List Char) : Option Nat :=
  (findRunThenGo (("月").data) false l).map digitsToNat

/-- `text.split("月", 1)[1]`: everything after the first `月`. -/
def afterFirstChar (c : Char) (l : List Char) : List Char :=
  (l.dropWhile (fun x => x ≠ c)).drop 1

/-- `re.findall(r"(\d+)", s)`: all maximal digit runs, via a reversed-run
accumulator. -/
def digitRunsGo (cur : List Char) : List Char → List (List Char)
  | [] => if cur.isEmpty then [] else [cur.reverse]
  | c :: rest =>
    if c.isDigit then digitRunsGo (c :: cur) rest
    else if cur.isEmpty then digitRunsGo [] rest
    else cur.reverse :: digitRunsGo [] rest

/-- `[int(d) for d in re.findall(r"(\d+)", days_part) if 1 <= int(d) <= 31]`. -/
def daysList (text : List Char) : List Nat :=
  ((digitRunsGo [] (afterFirstChar '月' text)).map digitsToNat).filter
    (fun d => decide (1 ≤ d) && decide (d ≤ 31))

/-- The body of the `for tr in soup.find_all("tr")` loop for one row text:
`some (kai, nichi)` exactly when the loop would `return` on this row. -/
def rowResult (month day : Nat) (place_name text : List Char) : Option (Nat × Nat) :=
  if subOf place_name text then
    match findKai text, findMon text with
    | some kai, some mon =>
      if mon = month then
        let dl := daysList text
        if day ∈ dl then some (kai, dl.indexOf day + 1) else none
      else none
    | _, _ => none
  else none

/-- The row loop of `get_nankan_kai_nichi`. -/
def scanRows (month day : Nat) (place_name : List Char) :
    List (List Char) → Option Nat × Option Nat
  | [] => (none, none)
  | t :: rest =>
    match rowResult month day place_name t with
    | some (k, n) => (some k, some n)
    | none => scanRows month day place_name rest

/-- `get_nankan_kai_nichi(month, day, place_name)`.  The oracle argument is
the list of `<tr>` texts of the fetched schedule page; `none` models the fetch
or parse raising an exception. -/
def get_nankan_kai_nichi (fetched : Option (List (List Char))) (month day : Nat)
    (place_name : List Char) : Option Nat × Option Nat :=
  match fetched with
  | none => (none, none)
  | some rows => scanRows month day place_name rows

-- ==================================================
-- run_dify_prediction  (keiba_bot.py lines 111-160)
-- and the session retry adapter (lines 42-52)
-- ==================================================

/-- A parsed server-sent event of the streaming Dify response.  `otherEvent`
covers empty lines, lines without the `data:` marker, unparsable JSON and
events other than `workflow_finished` / `text_chunk` / `message`. -/
inductive DifyEvent : Type
  | workflowFinished (textOutput : Option (List Char))
  | textChunk (chunk : List Char)
  | otherEvent
deriving DecidableEq

/-- Outcome of one `sess.post` call as seen by `run_dify_prediction` (that is,
after the mounted retry adapter): an exception (timeout, connection error,
retries exhausted inside the adapter) or a response with a status code and a
stream of events. -/
inductive PostOutcome : Type
  | exn
  | resp (code : Nat) (events : List DifyEvent)

/-- Outcome of one wire-level request below the retry adapter: a
connection-phase error (raised before the request is sent), a read-phase
error (read timeouts and dropped connections), or a response. -/
inductive LowOutcome : Type
  | connExn
  | readExn
  | resp (code : Nat) (events : List DifyEvent)

/-- `status_forcelist=(500, 502, 503, 504)` of the mounted `Retry`. -/
def statusForcelist (c : Nat) : Bool := c = 500 || c = 502 || c = 503 || c = 504

/-- Modelled from the source session setup `Retry(total=3, backoff_factor=1,
status_forcelist=(500, 502, 503, 504))` together with urllib3 retry
semantics: `Retry.is_retry` consults the allowed-methods gate before the
status forcelist, and the default allowed methods exclude POST, so
`methodRetryable` is `false` for the Dify POST and a response is returned
unretried whatever its status.  Connection-phase errors are retried while
budget remains (exhaustion raises); read-phase errors on a non-retryable
method re-raise at once.  Raised errors surface to `run_dify_prediction` as
an exception. -/
def adapterSend (methodRetryable : Bool) (low : Nat → LowOutcome) :
    Nat → Nat → PostOutcome
  | 0, i =>
    match low i with
    | .connExn => .exn
    | .readExn => .exn
    | .resp c ev =>
      if methodRetryable && statusForcelist c then .exn else .resp c ev
  | budget + 1, i =>
    match low i with
    | .connExn => adapterSend methodRetryable low budget (i + 1)
    | .readExn => .exn
    | .resp c ev =>
      if methodRetryable && statusForcelist c then
        adapterSend methodRetryable low budget (i + 1)
      else .resp c ev

/-- The `for line in res.iter_lines()` loop of the 200 branch, with the
accumulated `full_response`. -/
def processStream : List DifyEvent → List Char → List Char
  | [], acc => if acc.isEmpty then ("（回答生成エラー）").data else acc
  | .workflowFinished (some t) :: _, _ => t
  | .workflowFinished none :: rest, acc => processStream rest acc
  | .textChunk c :: rest, acc => processStream rest (acc ++ c)
  | .otherEvent :: rest, acc => processStream rest acc

def difyErrorMsg (code : Nat) : List Char := ("⚠️ Dify Error: ").data ++ natToDec code

def retryLimitMsg : List Char := ("⚠️ エラー: リトライ上限を超えました").data

def keyMissingMsg : List Char := ("⚠️ DIFY_API_KEY未設定").data

/-- The `for _ in range(max_retries)` loop of `run_dify_prediction`.  The
result is paired with the list of `time.sleep` durations performed (60 after a
429 response, 5 after an exception). -/
def difyLoop (outcomes : Nat → PostOutcome) : Nat → List Char × List Nat
  | 0 => (retryLimitMsg, [])
  | k + 1 =>
    match outcomes 0 with
    | .exn =>
      let r := difyLoop (fun i => outcomes (i + 1)) k
      (r.1, 5 :: r.2)
    | .resp code events =>
      if code = 429 then
        let r := difyLoop (fun i => outcomes (i + 1)) k
        (r.1, 60 :: r.2)
      else if code ≠ 200 then (difyErrorMsg code, [])
      else (processStream events [], [])

/-- `run_dify_prediction(full_text)`: the oracle `outcomes` gives the result
of each successive `sess.post` attempt.  Returns the produced string together
with the sleep log. -/
def run_dify_prediction (apiKey : List Char) (outcomes : Nat → PostOutcome) :
    List Char × List Nat :=
  if apiKey = [] then (keyMissingMsg, []) else difyLoop outcomes 3

/-- `run_dify_prediction` with each attempt going through the mounted retry
adapter: `lowOf a i` is the wire-level outcome of request `i` of attempt `a`.
The request is a POST, which urllib3 default allowed methods exclude, so the
adapter runs with `methodRetryable = false`. -/
def run_dify_full (apiKey : List Char) (lowOf : Nat → Nat → LowOutcome) :
    List Char × List Nat :=
  run_dify_prediction apiKey (fun a => adapterSend false (lowOf a) 3 0)

-- ==================================================
-- _parse_grades_from_ai and grade attachment
-- (keiba_bot.py lines 522-529 and 572-577)
-- ==================================================

/-- `text.split("\n")` (single-character separator, empty pieces kept). -/
def splitOnNl : List Char → List (List Char)
  | [] => [[]]
  | c :: rest =>
    if c = '\n' then [] :: splitOnNl rest
    else
      match splitOnNl rest with
      | [] => [[c]]
      | p :: ps => (c :: p) :: ps

def gradeLetters : List Char := ['S', 'A', 'B', 'C', 'D', 'E']

/-- The part of `([SABCDE])\s*[:：]?\s*([^\s　]+)` after the letter.  When the
optional colon is taken but no token follows, the regex backtracks and the
colon itself starts the token. -/
def matchAfterLetter (rest : List Char) : Option (List Char) :=
  let r1 := rest.dropWhile pyIsSpace
  match r1 with
  | [] => none
  | c :: r2 =>
    if c = ':' || c = '：' then
      let tok := (r2.dropWhile pyIsSpace).takeWhile (fun x => !pyIsSpace x)
      if tok.isEmpty then some (r1.takeWhile (fun x => !pyIsSpace x))
      else some tok
    else
      let tok := r1.takeWhile (fun x => !pyIsSpace x)
      if tok.isEmpty then none else some tok

/-- Scanner for `re.search(r"([SABCDE])\s*[:：]?\s*([^\s　]+)", line)`. -/
def findGradeMatch : List Char → Option (Char × List Char)
  | [] => none
  | c :: rest =>
    if gradeLetters.contains c then
      match matchAfterLetter rest with
      | some tok => some (c, tok)
      | none => findGradeMatch rest
    else findGradeMatch rest

def isOpenParen (c : Char) : Bool := c = '（' || c = '('
def isCloseParen (c : Char) : Bool := c = '）' || c = ')'

/-- `re.sub(r"[（\(].*?[）\)]", "", s)`: when the flag is set we are skipping a
matched parenthesised span up to its first closing parenthesis.  An opening
parenthesis with no closing one anywhere after it does not match and is kept. -/
def removeParensGo : Bool → List Char → List Char
  | _, [] => []
  | true, c :: rest =>
    if isCloseParen c then removeParensGo false rest else removeParensGo true rest
  | false, c :: rest =>
    if isOpenParen c && rest.any isCloseParen then removeParensGo true rest
    else c :: removeParensGo false rest

def removeParens (l : List Char) : List Char := removeParensGo false l

/-- The per-line update of the `grades` dict in `_parse_grades_from_ai`. -/
def gradesStep (m : List (List Char × Char)) (line : List Char) :
    List (List Char × Char) :=
  match findGradeMatch line with
  | some (g, tok) =>
    let n := pyStrip (removeParens tok)
    if n = [] then m else dictUpsert m n g
  | none => m

/-- The line loop of `_parse_grades_from_ai`, from an arbitrary start map. -/
def parseGradesLines (m : List (List Char × Char)) (ls : List (List Char)) :
    List (List Char × Char) :=
  ls.foldl gradesStep m

/-- `_parse_grades_from_ai(text)`. -/
def _parse_grades_from_ai (text : List Char) : List (List Char × Char) :=
  parseGradesLines [] (splitOnNl text)

/-- The grade-attachment step of `_fetch_matchup_table_selenium` (lines
572-577): exact dict lookup first, then the first entry whose key is in a
substring relation (either direction) with the row name. -/
def gradeFor (grades : List (List Char × Char)) (name : List Char) : List Char :=
  match dictFind grades name with
  | some g => [g]
  | none =>
    match grades.find? (fun kv => subOf kv.1 name || subOf name kv.1) with
    | some kv => [kv.2]
    | none => []

-- ==================================================
-- _format_rate  (keiba_bot.py lines 322-335)
-- ==================================================

/-- First maximal run of characters satisfying `p` (used for
`re.search(r"([\d\.]+)", s)`). -/
def firstRunOf (p : Char → Bool) : List Char → Option (List Char)
  | [] => none
  | c :: rest =>
    if p c then some (c :: rest.takeWhile p) else firstRunOf p rest

/-- Python `float()` on a run of digits and dots: valid when there is at most
one dot and at least one digit. -/
def parseFloatRun (l : List Char) : Option ℚ :=
  if l.count '.' > 1 then none
  else if l.all (fun c => c = '.') then none
  else
    let ip := l.takeWhile Char.isDigit
    let fp := (l.dropWhile Char.isDigit).drop 1
    some ((digitsToNat ip : ℚ) + (digitsToNat fp : ℚ) / ((10 : ℚ) ^ fp.length))

/-- Python `float()` on a stripped string (modelled for optionally signed
digit-and-dot literals; exponents and infinities are not produced by the data
paths that reach this function). -/
def pyFloat (l : List Char) : Option ℚ :=
  match l with
  | '-' :: rest =>
    if rest.all (fun c => c.isDigit || c = '.') && !rest.isEmpty then
      (parseFloatRun rest).map (fun q => -q)
    else none
  | '+' :: rest =>
    if rest.all (fun c => c.isDigit || c = '.') && !rest.isEmpty then parseFloatRun rest
    else none
  | _ =>
    if l.all (fun c => c.isDigit || c = '.') && !l.isEmpty then parseFloatRun l
    else none

/-- Python `round()` (round half to even) on an exact rational. -/
def roundHalfEven (q : ℚ) : ℤ :=
  let f := Rat.floor q
  let r := q - (f : ℚ)
  if r < 1 / 2 then f
  else if 1 / 2 < r then f + 1
  else if f % 2 = 0 then f else f + 1

/-- `_format_rate(val)`; `none` models the Python value `None`. -/
def _format_rate (val : Option (List Char)) : List Char :=
  match val with
  | none => []
  | some v =>
    let s := pyStrip v
    if s = [] || s = ("-").data || s = ("nan").data || s = ("NaN").data ||
        s = ("None").data then []
    else if s.contains '%' then
      match firstRunOf (fun c => c.isDigit || c = '.') s with
      | none => s
      | some run =>
        match parseFloatRun run with
        | none => s
        | some q => intToDec (roundHalfEven q) ++ [('%' : Char)]
    else
      match pyFloat s with
      | none => []
      | some x =>
        let y := if x ≤ 1 then x * 100 else x
        intToDec (roundHalfEven y) ++ [('%' : Char)]

-- ==================================================
-- _parse_date_place  (keiba_bot.py lines 337-352)
-- ==================================================

/-- `l.take n` when it consists of `n` digits. -/
def takeDigits (n : Nat) (l : List Char) : Option (List Char × List Char) :=
  let d := l.take n
  if d.length = n && d.all Char.isDigit then some (d, l.drop n) else none

/-- The `(\d{1,2})sep(\d{1,2})` tail of the date patterns, with the greedy
two-then-one digit preference of the regex. -/
def matchMonthDay (sep : Char) (l : List Char) : Option (List Char × List Char) :=
  let tryLen : Nat → Option (List Char × List Char) := fun n =>
    match takeDigits n l with
    | some (mo, rest) =>
      match rest with
      | c :: rest2 =>
        if c = sep then
          match takeDigits 2 rest2 with
          | some (dy, _) => some (mo, dy)
          | none =>
            match takeDigits 1 rest2 with
            | some (dy, _) => some (mo, dy)
            | none => none
        else none
      | [] => none
    | none => none
  match tryLen 2 with
  | some r => some r
  | none => tryLen 1

/-- A date core `(\d{yLen})sep(\d{1,2})sep(\d{1,2})` anchored at the head of
`l`, trying the year lengths in the greedy order of the pattern. -/
def matchCoreAt (yLens : List Nat) (sep : Char) (l : List Char) :
    Option (List Char × List Char × List Char) :=
  yLens.findSome? (fun n =>
    match takeDigits n l with
    | some (y, rest) =>
      match rest with
      | c :: rest2 =>
        if c = sep then (matchMonthDay sep rest2).map (fun md => (y, md.1, md.2)) else none
      | [] => none
    | none => none)

/-- Leftmost occurrence of a date core, together with the up-to-12 non-digit
characters immediately before it (the `([^\d]{0,12})` place group; when more
than 12 non-digit characters precede the core the regex can shift the group
into trailing whitespace, a case none of the scraped rows produce and which
only feeds `_normalize_place_token`). -/
def scanDate (yLens : List Nat) (sep : Char) :
    List Char → List Char → Option (List Char × List Char × List Char × List Char)
  | revPre, [] =>
    (matchCoreAt yLens sep []).map (fun ymd =>
      (((revPre.takeWhile (fun c => !c.isDigit)).take 12).reverse, ymd))
  | revPre, c :: rest =>
    match matchCoreAt yLens sep (c :: rest) with
    | some ymd => some ((((revPre.takeWhile (fun c => !c.isDigit)).take 12).reverse, ymd))
    | none => scanDate yLens sep (c :: revPre) rest

/-- `_parse_date_place(text, fallback_place)`. -/
def _parse_date_place (text fallback_place : List Char) : List Char × List Char :=
  let s := pyStrip (collapseWs text)
  match scanDate [4, 3, 2] '.' [] s with
  | some (rawp, y, mo, dy) =>
    let yv := digitsToNat y
    let yv2 := if yv < 100 then 2000 + yv else yv
    (_normalize_place_token (pyStrip rawp) fallback_place,
      natToDec yv2 ++ [('/' : Char)] ++ mo ++ [('/' : Char)] ++ dy)
  | none =>
    match scanDate [4] '/' [] s with
    | some (rawp, y, mo, dy) =>
      (_normalize_place_token (pyStrip rawp) fallback_place,
        y ++ [('/' : Char)] ++ mo ++ [('/' : Char)] ++ dy)
    | none => (fallback_place, ("不明").data)

-- ==================================================
-- _parse_one_history  (keiba_bot.py lines 354-406)
-- ==================================================

/-- The `\s*([0-9]{3,4})` tail of the distance pattern after `ダ` or `芝`
(greedy: four digits when available, else three). -/
def matchDistAfter (l : List Char) : Option (List Char) :=
  let ds := (l.dropWhile pyIsSpace).takeWhile Char.isDigit
  if 4 ≤ ds.length then some (ds.take 4)
  else if ds.length = 3 then some ds
  else none

/-- Scanner for `re.search(r"(?:ダ|芝)\s*([0-9]{3,4})", s)`. -/
def findDistA : List Char → Option (List Char)
  | [] => none
  | c :: rest =>
    if c = 'ダ' || c = '芝' then
      match matchDistAfter rest with
      | some d => some d
      | none => findDistA rest
    else findDistA rest

/-- Scanner for `re.search(r"([0-9]{3,4})m", s)` (greedy four then three at
each start position). -/
def findDistB : List Char → Option (List Char)
  | [] => none
  | c :: rest =>
    match
      (match takeDigits 4 (c :: rest) with
       | some (d, r) => if r.head? = some 'm' then some d else none
       | none => none) <|>
      (match takeDigits 3 (c :: rest) with
       | some (d, r) => if r.head? = some 'm' then some d else none
       | none => none)
    with
    | some d => some d
    | none => findDistB rest

/-- `n` digits followed by `\s*` and the literal character, used for
`(\d{1,2})\s*着`. -/
def matchThenLit (n : Nat) (lit : Char) (l : List Char) : Option (List Char) :=
  match takeDigits n l with
  | some (d, r) => if (r.dropWhile pyIsSpace).head? = some lit then some d else none
  | none => none

/-- Scanner for `re.search(r"(\d{1,2})\s*着", s)`. -/
def findRank : List Char → Option (List Char)
  | [] => none
  | c :: rest =>
    match matchThenLit 2 '着' (c :: rest) with
    | some d => some d
    | none =>
      match matchThenLit 1 '着' (c :: rest) with
      | some d => some d
      | none => findRank rest

/-- Scanner for `re.search(r"(\d+)\s*人気", s)`. -/
def findPop (l : List Char) : Option (List Char) :=
  findRunThenGo (("人気").data) false l

/-- The tail of `3F\s*[\d\.]+\s*\((\d+)\)` after the literal `3F`. -/
def matchAgariAfter (l : List Char) : Option (List Char) :=
  let l1 := l.dropWhile pyIsSpace
  let run := l1.takeWhile (fun c => c.isDigit || c = '.')
  if run.isEmpty then none
  else
    match (l1.dropWhile (fun c => c.isDigit || c = '.')).dropWhile pyIsSpace with
    | '(' :: l3 =>
      let ds := l3.takeWhile Char.isDigit
      if !ds.isEmpty && (l3.dropWhile Char.isDigit).head? = some ')' then some ds
      else none
    | _ => none

/-- Scanner for `re.search(r"3F\s*[\d\.]+\s*\((\d+)\)", s)`. -/
def findAgari : List Char → Option (List Char)
  | [] => none
  | c :: rest =>
    if c = '3' && rest.head? = some 'F' then
      match matchAgariAfter (rest.drop 1) with
      | some d => some d
      | none => findAgari rest
    else findAgari rest

/-- One `\d{1,2}` segment of the passing-order pattern (greedy). -/
def segTake : List Char → Option (List Char × List Char)
  | [] => none
  | [a] => if a.isDigit then some ([a], []) else none
  | a :: b :: rest =>
    if a.isDigit then
      if b.isDigit then some ([a, b], rest) else some ([a], b :: rest)
    else none

/-- The greedy `(?:-\d{1,2})*` tail of the passing-order pattern. -/
def pasMore : List Char → List (List Char)
  | '-' :: a :: b :: rest =>
    if a.isDigit then
      if b.isDigit then [a, b] :: pasMore rest
      else [[a]] ++ pasMore (b :: rest)
    else []
  | ['-', a] => if a.isDigit then [[a]] else []
  | _ => []

/-- The pattern `(\d{1,2}-\d{1,2}(?:-\d{1,2})*)` anchored at the head. -/
def matchPasAt (l : List Char) : Option (List Char) :=
  match segTake l with
  | some (s1, r1) =>
    match r1 with
    | '-' :: r2 =>
      match segTake r2 with
      | some (s2, r3) => some (joinWith [('-' : Char)] ([s1, s2] ++ pasMore r3))
      | none => none
    | _ => none
  | none => none

/-- Scanner for `re.search(r"(\d{1,2}-\d{1,2}(?:-\d{1,2})*)", s)`. -/
def findPas : List Char → Option (List Char)
  | [] => none
  | c :: rest =>
    match matchPasAt (c :: rest) with
    | some p => some p
    | none => findPas rest

/-- A character allowed in the jockey-name group `[^\s\d]{1,8}`. -/
def isTokenChar (c : Char) : Bool := !pyIsSpace c && !c.isDigit

/-- The riding-weight pattern `\d{2}\.\d` anchored at the head. -/
def weightAt (l : List Char) : Bool :=
  match l with
  | a :: b :: c :: d :: _ => a.isDigit && b.isDigit && c = '.' && d.isDigit
  | _ => false

/-- Scanner for the `.*?([^\s\d]{1,8})\s*(\d{2}\.\d)` tail: the first
position whose maximal token-character run has length at most 8 and is
followed (after whitespace) by a riding weight. -/
def findJockeyFrom : List Char → Option (List Char)
  | [] => none
  | c :: rest =>
    if isTokenChar c then
      let run := c :: rest.takeWhile isTokenChar
      let after := (rest.dropWhile isTokenChar).dropWhile pyIsSpace
      if run.length ≤ 8 && weightAt after then some run
      else findJockeyFrom rest
    else findJockeyFrom rest

/-- Scanner for `re.search(r"(?:\d+人気)?.*?([^\s\d]{1,8})\s*(\d{2}\.\d)", pt)`:
the optional leading popularity marker is consumed greedily first, and the
regex backtracks to leave it unconsumed when that yields no match. -/
def jockeyFromP (pt : List Char) : Option (List Char) :=
  let consumed : Option (List Char) :=
    match pt with
    | c :: _ =>
      if c.isDigit then
        let r := pt.dropWhile Char.isDigit
        if r.take 2 = ('人' :: '気' :: []) then findJockeyFrom (r.drop 2) else none
      else none
    | [] => none
  match consumed with
  | some j => some j
  | none => findJockeyFrom pt

/-- A `td.cs-z1` / `cs-z2` / `cs-z3` past-race cell as the parser reads it:
the `get_text(" ", strip=True)` text, the stripped texts of the spans of
`p.position` when that element is present, and the texts of the
`p.nk23_u-text10` paragraphs. -/
structure ZCell : Type where
  text : List Char
  positionSpans : Option (List (List Char))
  textPs : List (List Char)
deriving DecidableEq

/-- The dict returned by `_parse_one_history`. -/
structure History : Type where
  place : List Char
  ymd : List Char
  dist : List Char
  rank : List Char
  pop : List Char
  agari : List Char
  pas : List Char
  jockey_full : List Char
  raw : List Char
deriving DecidableEq

/-- The jockey-power CSV row for one (place, jockey) key. -/
structure PowerEntry : Type where
  power : List Char
  win_rate : List Char
  fuku_rate : List Char
deriving DecidableEq

/-- The in-memory resources built by `load_resources`. -/
structure Resources : Type where
  jockeys : List (List Char)
  trainers : List (List Char)
  power_data : List ((List Char × List Char) × PowerEntry)
deriving DecidableEq

/-- `resources["power_data"].get(key)`. -/
def lookupPD (pd : List ((List Char × List Char) × PowerEntry))
    (k : List Char × List Char) : Option PowerEntry :=
  (pd.find? (fun e => e.1 == k)).map (fun e => e.2)

/-- `_parse_one_history(z_cell, fallback_place, resources)`. -/
def _parse_one_history (z : Option ZCell) (fallback_place : List Char)
    (res : Resources) : History :=
  match z with
  | none => ⟨[], [], [], [], [], [], [], [], []⟩
  | some cell =>
    let zt := cell.text
    let pd := _parse_date_place zt fallback_place
    let dist := ((findDistA zt) <|> (findDistB zt)).getD []
    let rank := (findRank zt).getD []
    let pop := match findPop zt with
      | some g => g ++ ("人").data
      | none => []
    let agari := match findAgari zt with
      | some g => ("3F").data ++ g ++ ("位").data
      | none => []
    let pas := match cell.positionSpans with
      | some spans =>
        let sp := (spans.map pyStrip).filter (fun s => !s.isEmpty)
        if sp.isEmpty then [] else joinWith [('-' : Char)] sp
      | none => (findPas zt).getD []
    let j_prev := ((cell.textPs.findSome? jockeyFromP)).getD []
    let j_prev_full := normalize_name j_prev res.jockeys
    ⟨pd.1, pyStrip ((pd.2).filter (fun c => c ≠ '着')), dist, rank, pop, agari, pas,
      j_prev_full, zt⟩

-- ==================================================
-- parse_nankankeiba_detail  (keiba_bot.py lines 408-516)
-- ==================================================

/-- The `td.cs-ai2 .graph_text_div` cell: its text and the texts of its
`.is-percent`, `.is-number` and `.is-total` descendants when present. -/
structure Ai2Cell : Type where
  text : List Char
  percent : Option (List Char)
  number : Option (List Char)
  total : Option (List Char)
deriving DecidableEq

/-- One `tbody tr` of the detail table as the parser reads it:
the umaban cell text (`td.umaban` or `td.is-col02`), the horse-name link
text, the `a` texts of `td.cs-g1` when that cell is present, the
compatibility cell, and the three past-race cells. -/
structure Row : Type where
  umaban : Option (List Char)
  horseNameLink : Option (List Char)
  g1Links : Option (List (List Char))
  ai2 : Option Ai2Cell
  z1 : Option ZCell
  z2 : Option ZCell
  z3 : Option ZCell
deriving DecidableEq

/-- One value of the `data["horses"]` dict. -/
structure Horse : Type where
  name : List Char
  jockey : List Char
  trainer : List Char
  compat : List Char
  hist : List (List Char)
  display_power : List Char
  prev_place : List Char
  prev_jockey_full : List Char
  prev_power_val : List Char
deriving DecidableEq

/-- One past-race history string
`f"{ymd} {pl}{dist} {jk} {pas}({ag_part})→{rk}着({pop})"`. -/
def histF (one : History) : List Char :=
  let pas := if one.pas = [] then ("-").data else one.pas
  one.ymd ++ [(' ' : Char)] ++ one.place ++ one.dist ++ [(' ' : Char)] ++
  one.jockey_full ++ [(' ' : Char)] ++ pas ++ [('(' : Char)] ++ one.agari ++
  (")→").data ++ one.rank ++ ("着(").data ++ one.pop ++ [(')' : Char)]

/-- The compatibility-stats computation (`td.cs-ai2` handling). -/
def pairStats (ai2 : Option Ai2Cell) : List Char :=
  match ai2 with
  | none => ("-").data
  | some a =>
    if subOf (("データ").data) a.text then ("-").data
    else
      let r := (a.percent).getD []
      let w := (a.number).getD []
      let tt := (a.total).getD []
      if !r.isEmpty && !w.isEmpty && !tt.isEmpty then
        ("勝").data ++ r ++ [('(' : Char)] ++ w ++ [('/' : Char)] ++ tt ++ [(')' : Char)]
      else ("-").data

/-- The body of the row loop for one row: `none` models the `continue`
branches (no umaban cell, or a non-digit umaban text). -/
def parseRow (r : Row) (place_name : List Char) (res : Resources) :
    Option (List Char × Horse) :=
  match r.umaban with
  | none => none
  | some um =>
    if !pyIsDigitStr um then none
    else
      let horse_name := (r.horseNameLink).getD (("不明").data)
      let j_raw := match r.g1Links with
        | some links => links.getD 0 []
        | none => []
      let t_raw := match r.g1Links with
        | some links => links.getD 1 []
        | none => []
      let j_full := normalize_name j_raw res.jockeys
      let t_full := normalize_name t_raw res.trainers
      let ps := pairStats r.ai2
      let ones := ([r.z1, r.z2, r.z3].filterMap id).map
        (fun z => _parse_one_history (some z) place_name res)
      let prev := match r.z1 with
        | some z1 =>
          let one := _parse_one_history (some z1) place_name res
          let pw := match lookupPD res.power_data (one.place, one.jockey_full) with
            | some e => if pyStrip e.power ≠ [] then pyStrip e.power else []
            | none => []
          (one.place, one.jockey_full, pw)
        | none => ([], [], [])
      let hist := (ones.filter (fun o => !o.ymd.isEmpty)).map histF
      let curr := lookupPD res.power_data (place_name, j_full)
      let curr_p := pyStrip ((curr.map (fun e => e.power)).getD [])
      let curr_win := _format_rate (curr.map (fun e => e.win_rate))
      let curr_fuku := _format_rate (curr.map (fun e => e.fuku_rate))
      let p_disp :=
        if !curr_p.isEmpty && curr_p ≠ ("-").data && curr_p ≠ ("nan").data &&
            curr_p ≠ ("NaN").data then ("P:").data ++ curr_p
        else ("P:不明").data
      let stats_part :=
        if !curr_win.isEmpty || !curr_fuku.isEmpty then
          ("（勝").data ++ curr_win ++ ("複").data ++ curr_fuku ++ ("）").data
        else []
      let prev_disp := if !(prev.2.2).isEmpty then prev.2.2 else ("-").data
      let power_line := ("【騎手】").data ++ p_disp ++ stats_part ++ (" 前P:").data ++
        prev_disp ++ (" 相性:").data ++ ps
      some (um, ⟨horse_name, j_full, t_full, ps, hist, power_line,
        prev.1, prev.2.1, prev.2.2⟩)

/-- A `tbody tr` of the detail table: either a row whose cells are read
without incident, or a row whose processing raises an exception somewhere in
the `try` body (the `except` clause skips such a row). -/
inductive RowHtml : Type
  | ok (r : Row)
  | raises
deriving DecidableEq

/-- One iteration of the row loop acting on the horses dict. -/
def rowStep (place_name : List Char) (res : Resources)
    (acc : List (List Char × Horse)) : RowHtml → List (List Char × Horse)
  | .raises => acc
  | .ok r =>
    match parseRow r place_name res with
    | none => acc
    | some (u, h) => dictUpsert acc u h

/-- The row loop of `parse_nankankeiba_detail`. -/
def parse_rows (rows : List RowHtml) (place_name : List Char) (res : Resources) :
    List (List Char × Horse) :=
  rows.foldl (rowStep place_name res) []

/-- `data["meta"]`. -/
structure NkMeta : Type where
  race_name : List Char
  grade : List Char
  course : List Char
deriving DecidableEq

/-- The result of `parse_nankankeiba_detail`. -/
structure NkData : Type where
  meta : NkMeta
  horses : List (List Char × Horse)
deriving DecidableEq

/-- The whole detail page as the parser reads it: the `h3` title text, the
course-condition link text, and (when `#shosai_aria` and its table are
present) the table rows. -/
structure DetailPage : Type where
  h3 : Option (List Char)
  cond : Option (List Char)
  shosaiArea : Bool
  table : Option (List RowHtml)
deriving DecidableEq

def isHalfFullSpace (c : Char) : Bool := c = ' ' || c = '　'

/-- `re.split(r"[ 　]+", s)`: pieces between runs of spaces (with the empty
boundary pieces Python produces). -/
def reSplitGo : List Char → Bool → List Char → List (List Char)
  | cur, _, [] => [cur.reverse]
  | cur, inRun, c :: rest =>
    if isHalfFullSpace c then
      if inRun then reSplitGo cur true rest
      else cur.reverse :: reSplitGo [] true rest
    else reSplitGo (c :: cur) false rest

def reSplitSpaces (l : List Char) : List (List Char) := reSplitGo [] false l

/-- The meta block of `parse_nankankeiba_detail`. -/
def parseMeta (page : DetailPage) (place_name : List Char) : NkMeta :=
  let race_name := (page.h3).getD []
  let grade :=
    if race_name ≠ [] then
      let parts := reSplitSpaces race_name
      if 1 < parts.length then (parts.getLast?).getD [] else []
    else []
  let course := match page.cond with
    | some t => place_name ++ [(' ' : Char)] ++ t
    | none => []
  ⟨race_name, grade, course⟩

/-- `parse_nankankeiba_detail(html, place_name, resources)`. -/
def parse_nankankeiba_detail (page : DetailPage) (place_name : List Char)
    (res : Resources) : NkData :=
  let meta := parseMeta page place_name
  if !page.shosaiArea then ⟨meta, []⟩
  else
    match page.table with
    | none => ⟨meta, []⟩
    | some rows => ⟨meta, parse_rows rows place_name res⟩

-- ==================================================
-- The prompt builder inside run_races_iter
-- (keiba_bot.py lines 740-759)
-- ==================================================

def defaultHorse : Horse := ⟨[], [], [], [], [], [], [], [], []⟩

/-- One per-horse text block: the umaban/name/jockey/trainer line, the stable
comment, the training comment, the power line, the `【近走】` marker and the
history strings, joined by newlines. -/
def horseBlock (u : List Char) (h : Horse)
    (danwa cyokyo : List (List Char × List Char)) : List Char :=
  joinWith [('\n' : Char)]
    ([[('[' : Char)] ++ u ++ [(']' : Char)] ++ h.name ++ (" 騎:").data ++ h.jockey ++
        (" 師:").data ++ h.trainer,
      ("話:").data ++ (dictFind danwa u).getD (("なし").data),
      ("調:").data ++ (dictFind cyokyo u).getD (("データなし").data),
      h.display_power,
      ("【近走】").data] ++ h.hist)

/-- `sorted(nk_data["horses"].keys(), key=int)`. -/
def sortedUmaban (horses : List (List Char × Horse)) : List (List Char) :=
  List.insertionSort (fun a b => digitsToNat a ≤ digitsToNat b)
    (horses.map (fun e => e.1))

/-- The race header line. -/
def promptHeader (r_num : Nat) (meta : NkMeta) : List Char :=
  ("レース名:").data ++ natToDec r_num ++ ("R ").data ++ meta.race_name ++
  (" 格:").data ++ meta.grade ++ (" コース:").data ++ meta.course

/-- `full_prompt`: the header, a blank line, and the per-horse blocks joined
by blank lines, in ascending numeric umaban order. -/
def buildPrompt (r_num : Nat) (meta : NkMeta) (horses : List (List Char × Horse))
    (danwa cyokyo : List (List Char × List Char)) : List Char :=
  promptHeader r_num meta ++ ("\n\n").data ++
  joinWith (("\n\n").data)
    ((sortedUmaban horses).map
      (fun u => horseBlock u ((dictFind horses u).getD defaultHorse) danwa cyokyo))

-- ==================================================
-- run_races_iter  (keiba_bot.py lines 663-799)
-- ==================================================

/-- One yielded event, modelled as the dict
`{"type": ..., "data": ..., ("race_num": ...)}` (the `data` field is always
present; `race_num` is present exactly when the option is `some`). -/
structure YEvent : Type where
  type : List Char
  data : List Char
  race_num : Option Nat
deriving DecidableEq

def statusEv (d : List Char) : YEvent := ⟨("status").data, d, none⟩
def errorEv (d : List Char) : YEvent := ⟨("error").data, d, none⟩
def resultEv (r : Nat) (d : List Char) : YEvent := ⟨("result").data, d, some r⟩

/-- The outcome of one attempt of the per-race `try` body, as an oracle:
either the body raises (during the danwa/cyokyo/detail fetching), or it
obtains the keibabook comment dicts, the detail page, the Dify post outcomes
and the matchup-table text (the latter as a function of the parsed grades). -/
inductive RaceAttempt : Type
  | raises (msg : List Char)
  | page (danwa cyokyo : List (List Char × List Char)) (pg : DetailPage)
      (dify : Nat → PostOutcome) (matchup : List (List Char × Char) → List Char)

/-- The oracle environment of one `run_races_iter` run. -/
structure RunEnv : Type where
  res : Resources
  apiKey : List Char
  kaiNichi : Option Nat × Option Nat
  programListOk : Bool
  links : List (List Char)
  attempts : Nat → Nat → RaceAttempt

def kb_input_map : List (List Char × List Char) :=
  [(("10").data, ("大井").data), (("11").data, ("川崎").data),
   (("12").data, ("船橋").data), (("13").data, ("浦和").data)]

def nk_code_map : List (List Char × List Char) :=
  [(("10").data, ("20").data), (("11").data, ("21").data),
   (("12").data, ("19").data), (("13").data, ("18").data)]

/-- `href.split("/")[-1]`. -/
def lastSlashSeg (l : List Char) : List Char :=
  (l.reverse.takeWhile (fun c => c ≠ '/')).reverse

/-- `f.replace(".do", "")`. -/
def removeDotDo : List Char → List Char
  | '.' :: 'd' :: 'o' :: rest => removeDotDo rest
  | c :: rest => c :: removeDotDo rest
  | [] => []

/-- The target-race filter: an empty selection set is falsy, so it disables
filtering. -/
def filteredRaces (target : List Nat) (r_nums : List Nat) : List Nat :=
  if target = [] then r_nums else r_nums.filter (fun r => decide (r ∈ target))

/-- A line matched by `re.sub(r"^\s*-{3,}\s*$", "", ...)`. -/
def isDashRuleLine (l : List Char) : Bool :=
  let a := l.dropWhile pyIsSpace
  let ds := a.takeWhile (fun c => c = '-')
  3 ≤ ds.length && (a.drop ds.length).all pyIsSpace

/-- `re.sub(r"\n{3,}", "\n\n", s)`: the counter tracks consecutive newlines
already emitted. -/
def collapseNlGo : Nat → List Char → List Char
  | _, [] => []
  | k, c :: rest =>
    if c = '\n' then
      if 2 ≤ k then collapseNlGo k rest
      else '\n' :: collapseNlGo (k + 1) rest
    else c :: collapseNlGo 0 rest

/-- The `ai_out_clean` post-processing. -/
def cleanAiOut (t : List Char) : List Char :=
  pyStrip (collapseNlGo 0 (joinWith [('\n' : Char)]
    ((splitOnNl t).map (fun l => if isDashRuleLine l then [] else l))))

/-- The nankankeiba race id `f"{year}{month}{day}{nk_place_code}{kai:02}{nichi:02}{r_num:02}"`. -/
def nkRaceId (year month day nk_place_code : List Char) (kai nichi r_num : Nat) :
    List Char :=
  year ++ month ++ day ++ nk_place_code ++ zfill2 (natToDec kai) ++
  zfill2 (natToDec nichi) ++ zfill2 (natToDec r_num)

/-- The per-race attempt loop (`for attempt in range(max_race_retries)`),
returning the events it yields.  `idx` is the 0-based attempt counter and the
recursion is on the remaining attempts. -/
def raceAttemptGo (att : Nat → RaceAttempt) (place_name : List Char)
    (res : Resources) (apiKey mode : List Char)
    (year month day nk_place_code : List Char) (kai nichi r_num : Nat) :
    Nat → Nat → List YEvent
  | _, 0 => []
  | idx, remaining + 1 =>
    let nk_id := nkRaceId year month day nk_place_code kai nichi r_num
    let result_url := ("https://www.nankankeiba.com/result/").data ++ nk_id ++ (".do").data
    match att idx with
    | .raises msg =>
      if remaining = 0 then
        [errorEv (natToDec r_num ++ ("R 取得断念: ").data ++ msg)]
      else
        statusEv (("⚠️ ").data ++ natToDec r_num ++ ("R エラーによりリトライ(").data ++
            natToDec (idx + 1) ++ ("/3)...").data) ::
        raceAttemptGo att place_name res apiKey mode year month day nk_place_code
          kai nichi r_num (idx + 1) remaining
    | .page danwa cyokyo pg dify matchup =>
      let nk := parse_nankankeiba_detail pg place_name res
      if nk.horses.isEmpty then
        if remaining = 0 then
          [errorEv (natToDec r_num ++ ("R データ取得失敗(空データ)").data)]
        else
          raceAttemptGo att place_name res apiKey mode year month day nk_place_code
            kai nichi r_num (idx + 1) remaining
      else
        let full_prompt := buildPrompt r_num nk.meta nk.horses danwa cyokyo
        if mode = ("raw").data then
          [resultEv r_num (full_prompt ++ ("\n\n詳細リンク: ").data ++ result_url)]
        else
          let ai_out := (run_dify_prediction apiKey dify).1
          let grades := _parse_grades_from_ai ai_out
          let match_txt := matchup grades
          let final_text :=
            ("📅 ").data ++ year ++ [('/' : Char)] ++ month ++ [('/' : Char)] ++ day ++
            [(' ' : Char)] ++ place_name ++ natToDec r_num ++
            ("R\n\n=== 🤖AI予想 ===\n").data ++ cleanAiOut ai_out ++ ("\n\n").data ++
            match_txt ++ ("\n\n詳細リンク: ").data ++ result_url
          [statusEv (("🤖 ").data ++ natToDec r_num ++ ("R AI予測中...").data),
           resultEv r_num final_text]

/-- `run_races_iter(year, month, day, place_code, target_races, mode)`:
the list of yielded events.  The Fatal branch models `int(f[14:16])` raising
on a non-digit race suffix, which the outer handler turns into a final
`error` event. -/
def run_races_iter (env : RunEnv) (year month day place_code : List Char)
    (target_races : List Nat) (mode : List Char) : List YEvent :=
  let place_name := (dictFind kb_input_map place_code).getD (("地方").data)
  let nk_place_code := (dictFind nk_code_map place_code).getD (("None").data)
  let e1 := statusEv (("📅 開催特定中 (").data ++ place_name ++ (")...").data)
  if (env.kaiNichi.1).getD 0 = 0 then
    [e1, errorEv (("開催特定失敗（日付・場所を確認してください）").data)]
  else
    let kai := (env.kaiNichi.1).getD 0
    let nichi := (env.kaiNichi.2).getD 0
    let e2 := statusEv (("✅ ").data ++ place_name ++ (" 第").data ++ natToDec kai ++
      ("回 ").data ++ natToDec nichi ++ ("日目").data)
    let e3 := statusEv (("🔑 競馬ブック ログイン中...").data)
    if !env.programListOk then
      [e1, e2, e3, errorEv (("レース一覧の取得にタイムアウトしました").data)]
    else
      let pref := year ++ month ++ day ++ nk_place_code
      let fs := env.links.filterMap (fun href =>
        if subOf pref href && !subOf (("uma_shosai").data) href then
          let f := removeDotDo (lastSlashSeg href)
          if f.length = 16 then some f else none
        else none)
      if !(fs.all (fun f => (f.drop 14).all Char.isDigit)) then
        [e1, e2, e3, errorEv (("Fatal Error: invalid literal for int()").data)]
      else
        let rS := List.insertionSort (fun a b => a ≤ b)
          ((fs.map (fun f => digitsToNat (f.drop 14))).dedup)
        let r_nums := if rS.isEmpty then List.range' 1 12 else rS
        [e1, e2, e3] ++ (filteredRaces target_races r_nums).flatMap (fun r_num =>
          statusEv (("🏇 ").data ++ natToDec r_num ++ ("R データ解析中...").data) ::
          raceAttemptGo (env.attempts r_num) place_name env.res env.apiKey mode
            year month day nk_place_code kai nichi r_num 0 3)

-- ==================================================
-- Theorems
-- ==================================================

theorem natToDecAux_small (f n : Nat) (h : n < 10) :
    natToDecAux (f + 1) n = [Char.ofNat (48 + n)] := by
  simp [natToDecAux, h]

theorem natToDecAux_step (f n : Nat) (h : ¬ n < 10) :
    natToDecAux (f + 1) n = natToDecAux f (n / 10) ++ [Char.ofNat (48 + n % 10)] := by
  simp [natToDecAux, h]

theorem natToDec_length_le_two (n : Nat) (h : n < 100) : (natToDec n).length ≤ 2 := by
  unfold natToDec
  by_cases h1 : n < 10
  · rw [natToDecAux_small _ _ h1]; simp
  · obtain ⟨f, rfl⟩ : ∃ f, n = f + 1 := ⟨n - 1, by omega⟩
    rw [natToDecAux_step _ _ h1]
    have h2 : (f + 1) / 10 < 10 := by omega
    rw [natToDecAux_small f _ h2]
    simp

theorem natToDec_length_four (n : Nat) (h1 : 1000 ≤ n) (h2 : n < 10000) :
    (natToDec n).length = 4 := by
  unfold natToDec
  obtain ⟨f, rfl⟩ : ∃ f, n = f + 1000 := ⟨n - 1000, by omega⟩
  rw [natToDecAux_step _ _ (by omega)]
  have hb1 : 100 ≤ (f + 1000) / 10 ∧ (f + 1000) / 10 < 1000 := by omega
  obtain ⟨g1, hg1⟩ : ∃ g1, f + 1000 = g1 + 1 := ⟨f + 999, by omega⟩
  rw [hg1]
  rw [natToDecAux_step _ _ (by omega)]
  have hb2 : 10 ≤ (g1 + 1) / 10 / 10 ∧ (g1 + 1) / 10 / 10 < 100 := by omega
  obtain ⟨g2, hg2⟩ : ∃ g2, g1 = g2 + 1 := ⟨g1 - 1, by omega⟩
  rw [hg2]
  rw [natToDecAux_step _ _ (by omega)]
  have hb3 : 1 ≤ (g2 + 1 + 1) / 10 / 10 / 10 ∧ (g2 + 1 + 1) / 10 / 10 / 10 < 10 := by
    omega
  obtain ⟨g3, hg3⟩ : ∃ g3, g2 = g3 + 1 := ⟨g2 - 1, by omega⟩
  rw [hg3]
  rw [natToDecAux_small _ _ (by omega)]
  simp

theorem zfill2_length (s : List Char) (h : s.length ≤ 2) : (zfill2 s).length = 2 := by
  unfold zfill2
  by_cases h2 : 2 ≤ s.length
  · rw [if_pos h2]; omega
  · rw [if_neg h2]; simp; omega

/-- Claim C8: for a 4-digit year and arguments whose decimal renderings have
at most two digits, `get_kb_url_id` returns exactly 16 characters: the year
followed by the zero-padded month, place code, nichi, race number, month
(again) and day. -/
theorem C8_get_kb_url_id (year month day place_code nichi race_num : Nat)
    (hy1 : 1000 ≤ year) (hy2 : year < 10000) (hm : month < 100) (hd : day < 100)
    (hp : place_code < 100) (hn : nichi < 100) (hr : race_num < 100) :
    (get_kb_url_id year month day place_code nichi race_num).length = 16 ∧
    get_kb_url_id year month day place_code nichi race_num =
      natToDec year ++ zfill2 (natToDec month) ++ zfill2 (natToDec place_code) ++
      zfill2 (natToDec nichi) ++ zfill2 (natToDec race_num) ++
      zfill2 (natToDec month) ++ zfill2 (natToDec day) := by
  refine ⟨?_, rfl⟩
  unfold get_kb_url_id
  simp only [List.length_append]
  rw [natToDec_length_four year hy1 hy2,
    zfill2_length _ (natToDec_length_le_two month hm),
    zfill2_length _ (natToDec_length_le_two place_code hp),
    zfill2_length _ (natToDec_length_le_two nichi hn),
    zfill2_length _ (natToDec_length_le_two race_num hr),
    zfill2_length _ (natToDec_length_le_two day hd)]

/-- Witness for C8 at a concrete date. -/
theorem C8_witness : (get_kb_url_id 2025 5 3 10 2 7).length = 16 :=
  (C8_get_kb_url_id 2025 5 3 10 2 7 (by decide) (by decide) (by decide) (by decide)
    (by decide) (by decide) (by decide)).1

theorem place_map_values :
    ∀ kv ∈ PLACE_MAP, kv.2 ∈ canonicalPlaces := by decide

/-- Claim C10: `_normalize_place_token` returns one of the five canonical
place names or the fallback place, never anything else. -/
theorem C10_normalize_place_token (raw_p fallback_place : List Char) :
    _normalize_place_token raw_p fallback_place ∈ canonicalPlaces ∨
    _normalize_place_token raw_p fallback_place = fallback_place := by
  unfold _normalize_place_token
  by_cases h : raw_p = []
  · right; rw [if_pos h]
  · rw [if_neg h]
    generalize pyStrip ((pyStrip (collapseWs raw_p)).filter (fun c => c ≠ '着')) = s
    dsimp only
    cases hf : PLACE_MAP.find? (fun kv => !kv.1.isEmpty && subOf kv.1 s) with
    | some kv =>
      left
      simp only [hf]
      exact place_map_values kv (List.mem_of_find?_eq_some hf)
    | none =>
      simp only [hf]
      cases hg : PLACE_MAP.find? (fun kv => kv.1 == s.take 1) with
      | some kv =>
        left
        simp only [hg]
        exact place_map_values kv (List.mem_of_find?_eq_some hg)
      | none => right; simp only [hg]

theorem pickBest_eq_none (clean : List Char) (l : List (List Char)) :
    pickBest clean l = none ↔ l = [] := by
  cases l with
  | nil => simp [pickBest]
  | cons f fs =>
    simp only [pickBest]
    cases pickBest clean fs with
    | none => simp
    | some b =>
      by_cases hle : diffLen clean f ≤ diffLen clean b <;> simp [hle]

theorem pickBest_spec (clean : List Char) (l : List (List Char)) (b : List Char)
    (h : pickBest clean l = some b) :
    ∃ pre post, l = pre ++ b :: post ∧
      (∀ f ∈ l, diffLen clean b ≤ diffLen clean f) ∧
      (∀ f ∈ pre, diffLen clean b < diffLen clean f) := by
  induction l generalizing b with
  | nil => simp [pickBest] at h
  | cons f fs ih =>
    rw [pickBest] at h
    cases hfs : pickBest clean fs with
    | none =>
      rw [hfs] at h
      dsimp only at h
      obtain rfl : f = b := by simpa using h
      have : fs = [] := (pickBest_eq_none clean fs).mp hfs
      subst this
      exact ⟨[], [], rfl, by simp, by simp⟩
    | some b0 =>
      rw [hfs] at h
      dsimp only at h
      obtain ⟨pre0, post0, hsplit, hmin0, hstrict0⟩ := ih b0 hfs
      by_cases hle : diffLen clean f ≤ diffLen clean b0
      · rw [if_pos hle] at h
        obtain rfl : f = b := by simpa using h
        refine ⟨[], fs, rfl, ?_, by simp⟩
        intro g hg
        rcases List.mem_cons.mp hg with rfl | hg
        · exact le_refl _
        · exact le_trans hle (hmin0 g hg)
      · rw [if_neg hle] at h
        obtain rfl : b0 = b := by simpa using h
        refine ⟨f :: pre0, post0, by simp [hsplit], ?_, ?_⟩
        · intro g hg
          rcases List.mem_cons.mp hg with rfl | hg
          · exact le_of_lt (not_le.mp hle)
          · exact hmin0 g hg
        · intro g hg
          rcases List.mem_cons.mp hg with rfl | hg
          · exact not_le.mp hle
          · exact hstrict0 g hg

/-- Claim C1: `normalize_name` strips marker characters, digits, dots and
spaces; returns the empty string for an empty input or cleaned string;
returns the cleaned string for an empty list or when it is already a member;
otherwise returns the first full name containing every character of the
cleaned string with the smallest length difference, and the cleaned string
itself when no candidate exists. -/
theorem C1_normalize_name (abb : List Char) (full_list : List (List Char)) :
    (abb = [] → normalize_name abb full_list = []) ∧
    (cleanAbbrev abb = [] → normalize_name abb full_list = []) ∧
    (abb ≠ [] → cleanAbbrev abb ≠ [] → full_list = [] →
      normalize_name abb full_list = cleanAbbrev abb) ∧
    (abb ≠ [] → cleanAbbrev abb ∈ full_list →
      normalize_name abb full_list = cleanAbbrev abb) ∧
    (abb ≠ [] → cleanAbbrev abb ≠ [] → cleanAbbrev abb ∉ full_list →
      full_list.filter (containsAllChars (cleanAbbrev abb)) = [] →
      normalize_name abb full_list = cleanAbbrev abb) ∧
    (abb ≠ [] → cleanAbbrev abb ≠ [] → cleanAbbrev abb ∉ full_list →
      full_list.filter (containsAllChars (cleanAbbrev abb)) ≠ [] →
      normalize_name abb full_list ∈ full_list.filter (containsAllChars (cleanAbbrev abb)) ∧
      containsAllChars (cleanAbbrev abb) (normalize_name abb full_list) = true ∧
      (∀ f ∈ full_list.filter (containsAllChars (cleanAbbrev abb)),
        diffLen (cleanAbbrev abb) (normalize_name abb full_list) ≤
          diffLen (cleanAbbrev abb) f) ∧
      ∃ pre post,
        full_list.filter (containsAllChars (cleanAbbrev abb)) =
          pre ++ normalize_name abb full_list :: post ∧
        ∀ f ∈ pre, diffLen (cleanAbbrev abb) (normalize_name abb full_list) <
          diffLen (cleanAbbrev abb) f) := by
  refine ⟨?_, ?_, ?_, ?_, ?_, ?_⟩
  · intro h; simp [normalize_name, h]
  · intro h
    by_cases habb : abb = []
    · simp [normalize_name, habb]
    · simp [normalize_name, habb, h]
  · intro habb hcl hL
    simp [normalize_name, habb, hcl, hL]
  · intro habb hmem
    by_cases hcl : cleanAbbrev abb = []
    · rw [hcl]; simp [normalize_name, habb, hcl]
    · have hL : full_list ≠ [] := by rintro rfl; simp at hmem
      simp [normalize_name, habb, hcl, hL, hmem]
  · intro habb hcl hmem hcand
    by_cases hL : full_list = []
    · simp [normalize_name, habb, hcl, hL]
    · have hpb : pickBest (cleanAbbrev abb)
          (full_list.filter (containsAllChars (cleanAbbrev abb))) = none := by
        rw [pickBest_eq_none]; exact hcand
      simp [normalize_name, habb, hcl, hL, hmem, hpb]
  · intro habb hcl hmem hcand
    have hL : full_list ≠ [] := by
      rintro rfl; simp at hcand
    cases hpb : pickBest (cleanAbbrev abb)
        (full_list.filter (containsAllChars (cleanAbbrev abb))) with
    | none => exact absurd ((pickBest_eq_none _ _).mp hpb) hcand
    | some best =>
      have hres : normalize_name abb full_list = best := by
        simp [normalize_name, habb, hcl, hL, hmem, hpb]
      obtain ⟨pre, post, hsplit, hmin, hstrict⟩ := pickBest_spec _ _ _ hpb
      have hbmem : best ∈ full_list.filter (containsAllChars (cleanAbbrev abb)) := by
        rw [hsplit]; exact List.mem_append_right _ (List.mem_cons_self _ _)
      refine ⟨?_, ?_, ?_, ?_⟩
      · rw [hres]; exact hbmem
      · rw [hres]; exact (List.mem_filter.mp hbmem).2
      · rw [hres]; exact hmin
      · exact ⟨pre, post, by rw [hres]; exact hsplit, by rw [hres]; exact hstrict⟩

/-- Witness for C1: the interesting branch at a concrete abbreviation and
name list (the cleaned string matches the shortest containing name first),
plus the empty-input branch. -/
theorem C1_witness :
    normalize_name [] [("川").data] = [] ∧
    normalize_name (("▲山 田2").data) [("山本").data, ("山田太").data, ("大山田").data] ∈
      [("山本").data, ("山田太").data, ("大山田").data].filter
        (containsAllChars (cleanAbbrev (("▲山 田2").data))) ∧
    normalize_name (("▲山 田2").data) [("山本").data, ("山田太").data, ("大山田").data] =
      ("山田太").data := by
  refine ⟨(C1_normalize_name [] [("川").data]).1 rfl, ?_, by decide⟩
  exact ((C1_normalize_name (("▲山 田2").data)
    [("山本").data, ("山田太").data, ("大山田").data]).2.2.2.2.2
    (by decide) (by decide) (by decide) (by decide)).1

theorem cleanAbbrev_of_clean (l : List Char)
    (h : ∀ c ∈ l, isStrippedChar c = false) : cleanAbbrev l = l := by
  unfold cleanAbbrev
  rw [List.filter_eq_self]
  intro c hc
  simp [h c hc]

theorem cleanAbbrev_idem (l : List Char) : cleanAbbrev (cleanAbbrev l) = cleanAbbrev l := by
  apply cleanAbbrev_of_clean
  intro c hc
  have := (List.mem_filter.mp hc).2
  simpa using this

theorem normalize_name_member (full_list : List (List Char))
    (hcl : ∀ f ∈ full_list, ∀ c ∈ f, isStrippedChar c = false)
    (f : List Char) (hf : f ∈ full_list) : normalize_name f full_list = f := by
  by_cases hn : f = []
  · simp [normalize_name, hn]
  · have hclean : cleanAbbrev f = f := cleanAbbrev_of_clean f (hcl f hf)
    have hL : full_list ≠ [] := by rintro rfl; simp at hf
    rw [normalize_name, if_neg hn]
    simp only [hclean]
    rw [if_neg hn, if_neg hL, if_pos hf]

/-- Claim C9: when the full-name list contains none of the stripped
characters, `normalize_name` is idempotent, and every member of the list is
mapped to itself. -/
theorem C9_normalize_name_idem (full_list : List (List Char))
    (hcl : ∀ f ∈ full_list, ∀ c ∈ f, isStrippedChar c = false) (abb : List Char) :
    normalize_name (normalize_name abb full_list) full_list =
      normalize_name abb full_list ∧
    ∀ f ∈ full_list, normalize_name f full_list = f := by
  refine ⟨?_, normalize_name_member full_list hcl⟩
  by_cases habb : abb = []
  · simp [normalize_name, habb]
  · by_cases hclean : cleanAbbrev abb = []
    · have : normalize_name abb full_list = [] := by simp [normalize_name, habb, hclean]
      rw [this]
      simp [normalize_name]
    · by_cases hL : full_list = []
      · have hres : normalize_name abb full_list = cleanAbbrev abb := by
          simp [normalize_name, habb, hclean, hL]
        rw [hres, normalize_name, if_neg hclean]
        simp only [cleanAbbrev_idem]
        rw [if_neg hclean, if_pos hL]
      · by_cases hmem : cleanAbbrev abb ∈ full_list
        · have hres : normalize_name abb full_list = cleanAbbrev abb := by
            simp [normalize_name, habb, hclean, hL, hmem]
          rw [hres]
          exact normalize_name_member full_list hcl _ hmem
        · cases hpb : pickBest (cleanAbbrev abb)
            (full_list.filter (containsAllChars (cleanAbbrev abb))) with
          | some best =>
            have hres : normalize_name abb full_list = best := by
              simp [normalize_name, habb, hclean, hL, hmem, hpb]
            obtain ⟨pre, post, hsplit, _, _⟩ := pickBest_spec _ _ _ hpb
            have hbmem : best ∈ full_list := by
              have : best ∈ full_list.filter (containsAllChars (cleanAbbrev abb)) := by
                rw [hsplit]; exact List.mem_append_right _ (List.mem_cons_self _ _)
              exact List.mem_of_mem_filter this
            rw [hres]
            exact normalize_name_member full_list hcl best hbmem
          | none =>
            have hres : normalize_name abb full_list = cleanAbbrev abb := by
              simp [normalize_name, habb, hclean, hL, hmem, hpb]
            rw [hres, normalize_name, if_neg hclean]
            simp only [cleanAbbrev_idem]
            rw [if_neg hclean, if_neg hL, if_neg hmem, hpb]

/-- Witness for C9 on a concrete clean name list. -/
theorem C9_witness :
    normalize_name (normalize_name (("▲山 田2").data)
        [("山本").data, ("山田太").data]) [("山本").data, ("山田太").data] =
      normalize_name (("▲山 田2").data) [("山本").data, ("山田太").data] ∧
    normalize_name (("山本").data) [("山本").data, ("山田太").data] = ("山本").data := by
  have h := C9_normalize_name_idem [("山本").data, ("山田太").data] (by decide)
    (("▲山 田2").data)
  exact ⟨h.1, h.2 (("山本").data) (by decide)⟩

theorem scanRows_none (month day : Nat) (p : List Char) (rows : List (List Char))
    (h : ∀ t ∈ rows, rowResult month day p t = none) :
    scanRows month day p rows = (none, none) := by
  induction rows with
  | nil => rfl
  | cons t rest ih =>
    rw [scanRows, h t (List.mem_cons_self _ _)]
    exact ih (fun r hr => h r (List.mem_cons_of_mem _ hr))

theorem scanRows_some_iff (month day : Nat) (p : List Char) (rows : List (List Char))
    (k n : Nat) :
    scanRows month day p rows = (some k, some n) ↔
      ∃ pre t post, rows = pre ++ t :: post ∧
        rowResult month day p t = some (k, n) ∧
        ∀ r ∈ pre, rowResult month day p r = none := by
  induction rows with
  | nil =>
    simp only [scanRows]
    constructor
    · intro h; simp at h
    · rintro ⟨pre, t, post, hsplit, -, -⟩
      exact absurd hsplit (by simp)
  | cons t rest ih =>
    rw [scanRows]
    cases hr : rowResult month day p t with
    | some kn =>
      obtain ⟨k0, n0⟩ := kn
      dsimp only
      constructor
      · intro h
        have hk : k0 = k ∧ n0 = n := by
          constructor <;> [exact Option.some.inj (congrArg Prod.fst h);
            exact Option.some.inj (congrArg Prod.snd h)]
        obtain ⟨rfl, rfl⟩ := hk
        exact ⟨[], t, rest, rfl, hr, by simp⟩
      · rintro ⟨pre, t2, post, hsplit, ht2, hpre⟩
        cases pre with
        | nil =>
          simp only [List.nil_append, List.cons.injEq] at hsplit
          obtain ⟨rfl, rfl⟩ := hsplit
          rw [hr] at ht2
          obtain ⟨rfl, rfl⟩ : k0 = k ∧ n0 = n := by
            have := Option.some.inj ht2
            exact ⟨congrArg Prod.fst this, congrArg Prod.snd this⟩
          rfl
        | cons a pre2 =>
          simp only [List.cons_append, List.cons.injEq] at hsplit
          obtain ⟨rfl, -⟩ := hsplit
          have := hpre _ (List.mem_cons_self _ _)
          rw [hr] at this
          cases this
    | none =>
      dsimp only
      rw [ih]
      constructor
      · rintro ⟨pre, t2, post, hsplit, ht2, hpre⟩
        refine ⟨t :: pre, t2, post, by simp [hsplit], ht2, ?_⟩
        intro r hrm
        rcases List.mem_cons.mp hrm with rfl | hrm
        · exact hr
        · exact hpre r hrm
      · rintro ⟨pre, t2, post, hsplit, ht2, hpre⟩
        cases pre with
        | nil =>
          simp only [List.nil_append, List.cons.injEq] at hsplit
          obtain ⟨rfl, rfl⟩ := hsplit
          rw [hr] at ht2
          cases ht2
        | cons a pre2 =>
          simp only [List.cons_append, List.cons.injEq] at hsplit
          obtain ⟨rfl, hsplit2⟩ := hsplit
          exact ⟨pre2, t2, post, hsplit2, ht2,
            fun r hrm => hpre r (List.mem_cons_of_mem _ hrm)⟩

theorem rowResult_iff (month day : Nat) (p t : List Char) (k n : Nat) :
    rowResult month day p t = some (k, n) ↔
      subOf p t = true ∧ findKai t = some k ∧ findMon t = some month ∧
      day ∈ daysList t ∧ n = (daysList t).indexOf day + 1 := by
  unfold rowResult
  by_cases hs : subOf p t
  · rw [if_pos hs]
    cases hk : findKai t with
    | none => simp
    | some kai =>
      cases hm : findMon t with
      | none => simp
      | some mon =>
        dsimp only
        by_cases hmon : mon = month
        · subst hmon
          rw [if_pos rfl]
          by_cases hd : day ∈ daysList t
          · rw [if_pos hd]
            simp only [hs, hd, true_and, and_true, Option.some.injEq, Prod.mk.injEq]
            constructor
            · rintro ⟨rfl, rfl⟩
              exact ⟨rfl, rfl⟩
            · rintro ⟨rfl, rfl⟩
              exact ⟨rfl, rfl⟩
          · rw [if_neg hd]
            simp [hd]
        · rw [if_neg hmon]
          simp [hmon]
  · rw [if_neg hs]
    simp [hs]

/-- Claim C2: `get_nankan_kai_nichi` returns `(kai, nichi)` from the first
schedule row containing the place name whose month equals the target month
and whose listed day numbers (values 1..31) include the target day, with
`nichi` the 1-based position of the day; it returns `(None, None)` when no
row qualifies or the fetch raises. -/
theorem C2_get_nankan_kai_nichi (month day : Nat) (place_name : List Char) :
    get_nankan_kai_nichi none month day place_name = (none, none) ∧
    (∀ rows, (∀ t ∈ rows, rowResult month day place_name t = none) →
      get_nankan_kai_nichi (some rows) month day place_name = (none, none)) ∧
    (∀ rows k n,
      get_nankan_kai_nichi (some rows) month day place_name = (some k, some n) ↔
      ∃ pre t post, rows = pre ++ t :: post ∧
        rowResult month day place_name t = some (k, n) ∧
        ∀ r ∈ pre, rowResult month day place_name r = none) ∧
    (∀ t k n, rowResult month day place_name t = some (k, n) ↔
      subOf place_name t = true ∧ findKai t = some k ∧ findMon t = some month ∧
      day ∈ daysList t ∧ n = (daysList t).indexOf day + 1) := by
  refine ⟨rfl, ?_, ?_, ?_⟩
  · intro rows h
    exact scanRows_none month day place_name rows h
  · intro rows k n
    exact scanRows_some_iff month day place_name rows k n
  · intro t k n
    exact rowResult_iff month day place_name t k n

/-- Witness for C2: the exception case and a concrete two-row schedule where
the second row matches. -/
theorem C2_witness :
    get_nankan_kai_nichi none 10 15 (("大井").data) = (none, none) ∧
    get_nankan_kai_nichi (some [("川崎 第1回 10月 15 16").data,
        ("大井競馬 第3回 10月 1 2 15 16").data]) 10 15 (("大井").data) =
      (some 3, some 3) := by
  refine ⟨(C2_get_nankan_kai_nichi 10 15 (("大井").data)).1, ?_⟩
  apply ((C2_get_nankan_kai_nichi 10 15 (("大井").data)).2.2.1
    [("川崎 第1回 10月 15 16").data, ("大井競馬 第3回 10月 1 2 15 16").data] 3 3).mpr
  refine ⟨[("川崎 第1回 10月 15 16").data], ("大井競馬 第3回 10月 1 2 15 16").data,
    [], rfl, by decide, ?_⟩
  intro r hr
  rcases List.mem_cons.mp hr with rfl | hr
  · decide
  · cases hr

theorem difyLoop_zero (outcomes : Nat → PostOutcome) :
    difyLoop outcomes 0 = (retryLimitMsg, []) := rfl

theorem difyLoop_succ (outcomes : Nat → PostOutcome) (k : Nat) :
    difyLoop outcomes (k + 1) =
      match outcomes 0 with
      | .exn => ((difyLoop (fun i => outcomes (i + 1)) k).1,
          5 :: (difyLoop (fun i => outcomes (i + 1)) k).2)
      | .resp code events =>
        if code = 429 then
          ((difyLoop (fun i => outcomes (i + 1)) k).1,
            60 :: (difyLoop (fun i => outcomes (i + 1)) k).2)
        else if code ≠ 200 then (difyErrorMsg code, [])
        else (processStream events [], []) := rfl

theorem difyLoop_congr (k : Nat) : ∀ o1 o2 : Nat → PostOutcome,
    (∀ i, i < k → o1 i = o2 i) → difyLoop o1 k = difyLoop o2 k := by
  induction k with
  | zero => intro o1 o2 h; rfl
  | succ k ih =>
    intro o1 o2 h
    rw [difyLoop_succ, difyLoop_succ, h 0 (by omega)]
    have hr : difyLoop (fun i => o1 (i + 1)) k = difyLoop (fun i => o2 (i + 1)) k :=
      ih _ _ (fun i hi => h (i + 1) (by omega))
    cases o2 0 with
    | exn => rw [hr]
    | resp code events => rw [hr]

/-- Counterexample to claim C3 as stated: a 500 response is a 5xx status in
the configured forcelist, yet the reply is the immediate error string with no
retry and no sleep, because urllib3 applies the allowed-methods gate before
the status forcelist and the default allowed methods exclude the POST that
`run_dify_prediction` issues. -/
theorem C3_counterexample :
    run_dify_full [('k' : Char)] (fun _ _ => LowOutcome.resp 500 []) =
      (difyErrorMsg 500, []) ∧ statusForcelist 500 = true := ⟨rfl, rfl⟩

/-- Claim C3 (amended): `run_dify_prediction` makes at most 3 attempts,
sleeping 60 seconds after a 429 and 5 seconds after an exception (timeouts
included); because the mounted session retry does not apply its status
forcelist to POST requests, any non-200, non-429 status — all 5xx included —
returns the Dify error string immediately without retrying; a 200 response
returns the processed stream (the workflow output, the accumulated chunks or
the generation-error placeholder); exhaustion returns the retry-limit string;
an empty `DIFY_API_KEY` returns the warning without consulting any request
outcome; and the adapter passes every response through unretried while still
retrying connection-phase errors and re-raising read-phase errors. -/
theorem C3_run_dify_prediction (apiKey : List Char) (outcomes : Nat → PostOutcome) :
    (run_dify_prediction [] outcomes = (keyMissingMsg, [])) ∧
    (apiKey ≠ [] →
      (∀ code events, outcomes 0 = PostOutcome.resp code events → code ≠ 429 →
        code ≠ 200 → run_dify_prediction apiKey outcomes = (difyErrorMsg code, [])) ∧
      (∀ events, outcomes 0 = PostOutcome.resp 200 events →
        run_dify_prediction apiKey outcomes = (processStream events [], [])) ∧
      (outcomes 0 = PostOutcome.exn →
        run_dify_prediction apiKey outcomes =
          ((difyLoop (fun i => outcomes (i + 1)) 2).1,
            5 :: (difyLoop (fun i => outcomes (i + 1)) 2).2)) ∧
      (∀ events, outcomes 0 = PostOutcome.resp 429 events →
        run_dify_prediction apiKey outcomes =
          ((difyLoop (fun i => outcomes (i + 1)) 2).1,
            60 :: (difyLoop (fun i => outcomes (i + 1)) 2).2)) ∧
      ((∀ i, i < 3 → outcomes i = PostOutcome.exn) →
        run_dify_prediction apiKey outcomes = (retryLimitMsg, [5, 5, 5]))) ∧
    (∀ outcomes2 : Nat → PostOutcome, apiKey ≠ [] →
      (∀ i, i < 3 → outcomes i = outcomes2 i) →
      run_dify_prediction apiKey outcomes = run_dify_prediction apiKey outcomes2) ∧
    (∀ (low : Nat → LowOutcome) (b i code : Nat) (events : List DifyEvent),
      low i = LowOutcome.resp code events →
      adapterSend false low b i = PostOutcome.resp code events) ∧
    statusForcelist 500 = true ∧ statusForcelist 502 = true ∧
    statusForcelist 503 = true ∧ statusForcelist 504 = true ∧
    (∀ (low : Nat → LowOutcome) (b i : Nat), low i = LowOutcome.connExn →
      adapterSend false low (b + 1) i = adapterSend false low b (i + 1)) ∧
    (∀ (low : Nat → LowOutcome) (i : Nat), low i = LowOutcome.connExn →
      adapterSend false low 0 i = PostOutcome.exn) ∧
    (∀ (low : Nat → LowOutcome) (b i : Nat), low i = LowOutcome.readExn →
      adapterSend false low b i = PostOutcome.exn) := by
  refine ⟨by rw [run_dify_prediction, if_pos rfl], ?_, ?_, ?_, rfl, rfl, rfl, rfl,
    ?_, ?_, ?_⟩
  · intro hkey
    refine ⟨?_, ?_, ?_, ?_, ?_⟩
    · intro code events h0 h429 h200
      rw [run_dify_prediction, if_neg hkey]
      rw [show (3 : Nat) = 2 + 1 from rfl, difyLoop_succ, h0]
      try dsimp only
      rw [if_neg h429, if_pos h200]
    · intro events h0
      rw [run_dify_prediction, if_neg hkey]
      rw [show (3 : Nat) = 2 + 1 from rfl, difyLoop_succ, h0]
      try dsimp only
      rw [if_neg (by decide : ¬ (200 : Nat) = 429)]
      simp
    · intro h0
      rw [run_dify_prediction, if_neg hkey]
      rw [show (3 : Nat) = 2 + 1 from rfl, difyLoop_succ, h0]
    · intro events h0
      rw [run_dify_prediction, if_neg hkey]
      rw [show (3 : Nat) = 2 + 1 from rfl, difyLoop_succ, h0]
      try dsimp only
      rw [if_pos rfl]
    · intro h
      rw [run_dify_prediction, if_neg hkey]
      rw [show (3 : Nat) = 2 + 1 from rfl, difyLoop_succ, h 0 (by omega)]
      try dsimp only
      rw [show (2 : Nat) = 1 + 1 from rfl, difyLoop_succ]
      simp only [h 1 (by omega)]
      try dsimp only
      rw [show (1 : Nat) = 0 + 1 from rfl, difyLoop_succ]
      simp only [h 2 (by omega)]
      simp [difyLoop_zero]
  · intro outcomes2 hkey hagree
    rw [run_dify_prediction, if_neg hkey, run_dify_prediction, if_neg hkey]
    exact difyLoop_congr 3 outcomes outcomes2 hagree
  · intro low b i code events hlow
    cases b with
    | zero =>
      rw [adapterSend, hlow]
      simp
    | succ b =>
      rw [adapterSend, hlow]
      simp
  · intro low b i hlow
    rw [adapterSend, hlow]
  · intro low i hlow
    rw [adapterSend, hlow]
  · intro low b i hlow
    cases b with
    | zero => rw [adapterSend, hlow]
    | succ b => rw [adapterSend, hlow]

/-- Witness for C3 (amended): the theorem applied to a concrete non-200
status (returned without retry) and to a run of three exceptions. -/
theorem C3_witness :
    run_dify_prediction [('k' : Char)] (fun _ => PostOutcome.resp 404 []) =
      (difyErrorMsg 404, []) ∧
    run_dify_prediction [('k' : Char)] (fun _ => PostOutcome.exn) =
      (retryLimitMsg, [5, 5, 5]) ∧
    adapterSend false (fun _ => LowOutcome.resp 500 []) 3 0 =
      PostOutcome.resp 500 [] := by
  refine ⟨?_, ?_, ?_⟩
  · exact ((C3_run_dify_prediction [('k' : Char)]
      (fun _ => PostOutcome.resp 404 [])).2.1 (by decide)).1 404 [] rfl
      (by decide) (by decide)
  · exact ((C3_run_dify_prediction [('k' : Char)]
      (fun _ => PostOutcome.exn)).2.1 (by decide)).2.2.2.2 (fun i _ => rfl)
  · exact (C3_run_dify_prediction [('k' : Char)]
      (fun _ => PostOutcome.exn)).2.2.2.1 (fun _ => LowOutcome.resp 500 []) 3 0
      500 [] rfl

theorem dictFind_cons {α : Type} (x : List Char × α) (l : List (List Char × α))
    (k2 : List Char) :
    dictFind (x :: l) k2 = if x.1 == k2 then some x.2 else dictFind l k2 := by
  unfold dictFind
  rw [List.find?_cons]
  by_cases h : x.1 == k2
  · simp [h]
  · simp [h]

theorem dictFind_map_overwrite {α : Type} (m : List (List Char × α))
    (k k2 : List Char) (v : α) (h : k2 ≠ k) :
    dictFind (m.map (fun kv => if kv.1 == k then (kv.1, v) else kv)) k2 =
      dictFind m k2 := by
  induction m with
  | nil => rfl
  | cons a m ih =>
    rw [List.map_cons]
    by_cases hak : (a.1 == k) = true
    · have hk : a.1 = k := by simpa using hak
      have ha2 : (a.1 == k2) = false := by
        simp only [beq_eq_false_iff_ne, ne_eq]
        intro e
        exact h (by rw [← e, hk])
      rw [if_pos hak, dictFind_cons, dictFind_cons]
      dsimp only
      simp only [ha2, Bool.false_eq_true, if_false]
      exact ih
    · rw [if_neg hak, dictFind_cons, dictFind_cons]
      by_cases ha2 : (a.1 == k2) = true
      · rw [if_pos ha2, if_pos ha2]
      · rw [if_neg ha2, if_neg ha2]
        exact ih

theorem dictFind_map_overwrite_hit {α : Type} (m : List (List Char × α))
    (k : List Char) (v : α) (h : m.any (fun kv => kv.1 == k) = true) :
    dictFind (m.map (fun kv => if kv.1 == k then (kv.1, v) else kv)) k = some v := by
  induction m with
  | nil => simp at h
  | cons a m ih =>
    rw [List.map_cons]
    by_cases hak : (a.1 == k) = true
    · rw [if_pos hak, dictFind_cons]
      dsimp only
      rw [if_pos hak]
    · rw [if_neg hak, dictFind_cons]
      rw [if_neg hak]
      rw [List.any_cons] at h
      simp only [hak, Bool.false_or] at h
      exact ih h

theorem dictFind_none_of_not_any {α : Type} (m : List (List Char × α))
    (k : List Char) (h : m.any (fun kv => kv.1 == k) = false) :
    dictFind m k = none := by
  induction m with
  | nil => rfl
  | cons a m ih =>
    rw [List.any_cons] at h
    rcases Bool.or_eq_false_iff.mp h with ⟨h1, h2⟩
    rw [dictFind_cons, if_neg (by simp [h1])]
    exact ih h2

theorem dictFind_append {α : Type} (l1 l2 : List (List Char × α)) (k : List Char) :
    dictFind (l1 ++ l2) k =
      match dictFind l1 k with
      | some v => some v
      | none => dictFind l2 k := by
  induction l1 with
  | nil => rfl
  | cons a l1 ih =>
    rw [List.cons_append, dictFind_cons, dictFind_cons]
    by_cases ha : (a.1 == k) = true
    · simp [ha]
    · simp only [ha, Bool.false_eq_true, if_false]
      exact ih

theorem dictFind_upsert {α : Type} (m : List (List Char × α)) (k k2 : List Char)
    (v : α) :
    dictFind (dictUpsert m k v) k2 = if k2 = k then some v else dictFind m k2 := by
  unfold dictUpsert
  cases hany : m.any (fun kv => kv.1 == k) with
  | true =>
    rw [if_pos rfl]
    by_cases h : k2 = k
    · subst h
      rw [if_pos rfl]
      exact dictFind_map_overwrite_hit m k2 v hany
    · rw [if_neg h]
      exact dictFind_map_overwrite m k k2 v h
  | false =>
    rw [if_neg (by simp)]
    rw [dictFind_append]
    by_cases h : k2 = k
    · subst h
      rw [dictFind_none_of_not_any m k2 hany]
      rw [if_pos rfl]
      dsimp only
      rw [dictFind_cons, if_pos (by simp)]
    · rw [if_neg h]
      cases hf : dictFind m k2 with
      | some v2 => rfl
      | none =>
        dsimp only
        rw [dictFind_cons]
        rw [if_neg (by simp; exact fun e => h e.symm)]
        rfl

theorem gradesStep_shift (m : List (List Char × Char)) (line n : List Char) :
    dictFind (gradesStep m line) n =
      match dictFind (gradesStep [] line) n with
      | some g => some g
      | none => dictFind m n := by
  unfold gradesStep
  cases hm : findGradeMatch line with
  | none => rfl
  | some gt =>
    obtain ⟨g, tok⟩ := gt
    dsimp only
    by_cases hn : pyStrip (removeParens tok) = []
    · rw [if_pos hn, if_pos hn]
      rfl
    · rw [if_neg hn, if_neg hn]
      rw [dictFind_upsert, dictFind_upsert]
      by_cases he : n = pyStrip (removeParens tok)
      · rw [if_pos he, if_pos he]
      · rw [if_neg he, if_neg he]
        rw [dictFind_none_of_not_any [] n rfl]

theorem parseGradesLines_shift (ls : List (List Char)) : ∀ m n,
    dictFind (parseGradesLines m ls) n =
      match dictFind (parseGradesLines [] ls) n with
      | some g => some g
      | none => dictFind m n := by
  induction ls with
  | nil =>
    intro m n
    cases hf : dictFind (parseGradesLines [] []) n with
    | some g => cases hf
    | none => rfl
  | cons line ls ih =>
    intro m n
    have h1 : parseGradesLines m (line :: ls) = parseGradesLines (gradesStep m line) ls := rfl
    have h2 : parseGradesLines [] (line :: ls) =
        parseGradesLines (gradesStep [] line) ls := rfl
    rw [h1, h2, ih (gradesStep m line) n, ih (gradesStep [] line) n]
    cases ht : dictFind (parseGradesLines [] ls) n with
    | some g => rfl
    | none =>
      dsimp only
      exact gradesStep_shift m line n

/-- Claim C6: `_parse_grades_from_ai` builds its map line by line — a line
whose first regex match gives a letter in SABCDE and a non-space token maps
the token (with any parenthesised part removed) to the letter, later lines
overwriting earlier ones — and the matchup rows are annotated with the grade
of an exactly matching name, or of the first graded name in a substring
relation with the row name. -/
theorem C6_parse_grades (text : List Char) :
    (_parse_grades_from_ai text = parseGradesLines [] (splitOnNl text)) ∧
    (∀ (m : List (List Char × Char)) line g tok, findGradeMatch line = some (g, tok) →
      pyStrip (removeParens tok) ≠ [] →
      dictFind (gradesStep m line) (pyStrip (removeParens tok)) = some g) ∧
    (∀ (m : List (List Char × Char)) line, findGradeMatch line = none →
      gradesStep m line = m) ∧
    (∀ ls1 ls2 n, dictFind (parseGradesLines [] (ls1 ++ ls2)) n =
      match dictFind (parseGradesLines [] ls2) n with
      | some g => some g
      | none => dictFind (parseGradesLines [] ls1) n) ∧
    (∀ grades name g, dictFind grades name = some g → gradeFor grades name = [g]) ∧
    (∀ grades name, dictFind grades name = none →
      (∀ kv ∈ grades, subOf kv.1 name = false ∧ subOf name kv.1 = false) →
      gradeFor grades name = []) ∧
    (∀ grades name kv, dictFind grades name = none →
      grades.find? (fun kv => subOf kv.1 name || subOf name kv.1) = some kv →
      gradeFor grades name = [kv.2] ∧ kv ∈ grades ∧
      (subOf kv.1 name || subOf name kv.1) = true) := by
  refine ⟨rfl, ?_, ?_, ?_, ?_, ?_, ?_⟩
  · intro m line g tok hm hn
    unfold gradesStep
    rw [hm]
    dsimp only
    rw [if_neg hn, dictFind_upsert, if_pos rfl]
  · intro m line hm
    unfold gradesStep
    rw [hm]
  · intro ls1 ls2 n
    have h1 : parseGradesLines [] (ls1 ++ ls2) =
        parseGradesLines (parseGradesLines [] ls1) ls2 := List.foldl_append _ _ _ _
    rw [h1]
    exact parseGradesLines_shift ls2 (parseGradesLines [] ls1) n
  · intro grades name g hg
    unfold gradeFor
    rw [hg]
  · intro grades name hnone hrel
    unfold gradeFor
    rw [hnone]
    dsimp only
    rw [List.find?_eq_none.mpr ?_]
    intro kv hkv
    have := hrel kv hkv
    simp [this.1, this.2]
  · intro grades name kv hnone hfind
    unfold gradeFor
    rw [hnone]
    dsimp only
    rw [hfind]
    refine ⟨rfl, List.mem_of_find?_eq_some hfind, ?_⟩
    have := List.find?_some hfind
    simpa using this

/-- Witness for C6: a concrete graded line and a concrete substring-related
matchup name. -/
theorem C6_witness :
    dictFind (gradesStep [] (("S: ホースA").data))
      (pyStrip (removeParens (("ホースA").data))) = some 'S' ∧
    gradeFor [((("ホースA").data), 'S')] (("ホースA号").data) = ['S'] := by
  constructor
  · exact (C6_parse_grades (("x").data)).2.1 [] (("S: ホースA").data) 'S'
      (("ホースA").data) (by decide) (by decide)
  · exact ((C6_parse_grades (("x").data)).2.2.2.2.2.2 [((("ホースA").data), 'S')]
      (("ホースA号").data) ((("ホースA").data), 'S') (by decide) (by decide)).1

theorem parse_date_place_snd (text fb : List Char) :
    (_parse_date_place text fb).2 = ("不明").data ∨
    '/' ∈ (_parse_date_place text fb).2 := by
  unfold _parse_date_place
  dsimp only
  cases h1 : scanDate [4, 3, 2] '.' [] (pyStrip (collapseWs text)) with
  | some r =>
    obtain ⟨rawp, y, mo, dy⟩ := r
    right
    simp only [h1]
    simp [List.mem_append]
  | none =>
    simp only [h1]
    cases h2 : scanDate [4] '/' [] (pyStrip (collapseWs text)) with
    | some r =>
      obtain ⟨rawp, y, mo, dy⟩ := r
      right
      simp only [h2]
      simp [List.mem_append]
    | none =>
      left
      simp only [h2]

theorem mem_dropWhile_of_not (p : Char → Bool) (l : List Char) (c : Char)
    (hc : c ∈ l) (hp : p c = false) : c ∈ l.dropWhile p := by
  induction l with
  | nil => cases hc
  | cons a l ih =>
    rw [List.dropWhile_cons]
    by_cases ha : p a = true
    · rw [if_pos ha]
      rcases List.mem_cons.mp hc with rfl | hm
      · rw [hp] at ha; cases ha
      · exact ih hm
    · rw [if_neg ha]
      exact hc

theorem pyStrip_ne_nil (l : List Char) (c : Char) (hc : c ∈ l)
    (hp : pyIsSpace c = false) : pyStrip l ≠ [] := by
  unfold pyStrip
  intro h
  have h1 : (l.dropWhile pyIsSpace).reverse.dropWhile pyIsSpace = [] := by
    simpa using h
  have hc1 : c ∈ l.dropWhile pyIsSpace := mem_dropWhile_of_not _ _ _ hc hp
  have hc2 : c ∈ (l.dropWhile pyIsSpace).reverse := List.mem_reverse.mpr hc1
  have hc3 : c ∈ (l.dropWhile pyIsSpace).reverse.dropWhile pyIsSpace :=
    mem_dropWhile_of_not _ _ _ hc2 hp
  rw [h1] at hc3
  cases hc3

theorem history_ymd_ne_nil (z : ZCell) (fb : List Char) (res : Resources) :
    (_parse_one_history (some z) fb res).ymd ≠ [] := by
  unfold _parse_one_history
  dsimp only
  rcases parse_date_place_snd z.text fb with h | h
  · rw [h]
    decide
  · apply pyStrip_ne_nil _ '/' ?_ (by decide)
    rw [List.mem_filter]
    exact ⟨h, by decide⟩

theorem mem_dictUpsert {α : Type} (m : List (List Char × α)) (k : List Char) (v : α)
    (x : List Char × α) (hx : x ∈ dictUpsert m k v) : x ∈ m ∨ x = (k, v) := by
  unfold dictUpsert at hx
  by_cases hany : m.any (fun kv => kv.1 == k) = true
  · rw [if_pos hany] at hx
    rcases List.mem_map.mp hx with ⟨kv, hkv, hval⟩
    by_cases hk : (kv.1 == k) = true
    · right
      rw [if_pos hk] at hval
      have he : kv.1 = k := by simpa using hk
      rw [← hval, he]
    · left
      rw [if_neg hk] at hval
      rw [← hval]
      exact hkv
  · rw [if_neg hany] at hx
    rcases List.mem_append.mp hx with h | h
    · left; exact h
    · right; simpa using h

theorem parseRow_shape (r : Row) (p : List Char) (res : Resources) (u : List Char)
    (h : Horse) (hp : parseRow r p res = some (u, h)) :
    r.umaban = some u ∧ pyIsDigitStr u = true ∧
    h.hist.length = ([r.z1, r.z2, r.z3].filterMap id).length ∧ h.hist.length ≤ 3 := by
  unfold parseRow at hp
  cases hu : r.umaban with
  | none => rw [hu] at hp; cases hp
  | some um =>
    rw [hu] at hp
    dsimp only at hp
    cases hd : pyIsDigitStr um with
    | false =>
      rw [if_pos (by rw [hd]; rfl)] at hp
      cases hp
    | true =>
      rw [if_neg (by rw [hd]; simp)] at hp
      have hp2 := Option.some.inj hp
      rw [Prod.ext_iff] at hp2
      obtain ⟨rfl, hh⟩ := hp2
      subst hh
      refine ⟨rfl, hd, ?_, ?_⟩
      · dsimp only
        rw [List.filter_eq_self.mpr ?_]
        · rw [List.length_map, List.length_map]
        · intro o ho
          rcases List.mem_map.mp ho with ⟨z, hz, rfl⟩
          simpa using history_ymd_ne_nil z p res
      · dsimp only
        calc (((([r.z1, r.z2, r.z3].filterMap id).map
              (fun z => _parse_one_history (some z) p res)).filter
                (fun o => !o.ymd.isEmpty)).map histF).length
            ≤ (([r.z1, r.z2, r.z3].filterMap id).map
              (fun z => _parse_one_history (some z) p res)).length := by
              rw [List.length_map]
              exact List.length_filter_le _ _
          _ ≤ 3 := by
              rw [List.length_map]
              exact le_trans (List.length_filterMap_le _ _) (by simp)

theorem parse_rows_invariant (p : List Char) (res : Resources) (rows : List RowHtml) :
    ∀ acc : List (List Char × Horse),
      (∀ u h, (u, h) ∈ acc → h.hist.length ≤ 3 ∧ pyIsDigitStr u = true) →
      ∀ u h, (u, h) ∈ rows.foldl (rowStep p res) acc →
        h.hist.length ≤ 3 ∧ pyIsDigitStr u = true := by
  induction rows with
  | nil => intro acc hacc u h hm; exact hacc u h hm
  | cons row rest ih =>
    intro acc hacc u h hm
    rw [List.foldl_cons] at hm
    refine ih (rowStep p res acc row) ?_ u h hm
    intro u2 h2 hm2
    cases row with
    | raises => exact hacc u2 h2 hm2
    | ok r =>
      unfold rowStep at hm2
      dsimp only at hm2
      cases hpr : parseRow r p res with
      | none =>
        rw [hpr] at hm2
        exact hacc u2 h2 hm2
      | some uh =>
        obtain ⟨u0, h0⟩ := uh
        rw [hpr] at hm2
        dsimp only at hm2
        rcases mem_dictUpsert acc u0 h0 (u2, h2) hm2 with hin | heq
        · exact hacc u2 h2 hin
        · rw [Prod.ext_iff] at heq
          obtain ⟨rfl, rfl⟩ := heq
          have hs := parseRow_shape r p res _ _ hpr
          exact ⟨hs.2.2.2, hs.2.1⟩

/-- Counterexample to claim C4 as stated: a present `cs-z1` cell whose text
contains no parsable date still contributes a history string (with the 不明
date placeholder), so the horse has one history entry although no date was
parsed from the cell. -/
theorem C4_counterexample :
    ((parse_rows [RowHtml.ok ⟨some (("7").data), none, none, none,
          some ⟨("はじめて").data, none, []⟩, none, none⟩]
        (("大井").data) ⟨[], [], []⟩).map (fun e => (e.1, e.2.hist.length)) =
      [((("7").data), 1)]) ∧
    scanDate [4, 3, 2] '.' [] (pyStrip (collapseWs (("はじめて").data))) = none ∧
    scanDate [4] '/' [] (pyStrip (collapseWs (("はじめて").data))) = none := by
  refine ⟨by decide, by decide, by decide⟩

/-- Claim C4 (amended): every horse entry has at most 3 history strings, one
per present `cs-z` cell (a present cell always contributes, its date string
defaulting to 不明, hence never empty); a row contributes only when its
umaban text is all digits; and a row raising an exception is skipped without
affecting the other rows. -/
theorem C4_parse_detail (rows : List RowHtml) (place_name : List Char)
    (res : Resources) :
    (∀ u h, (u, h) ∈ parse_rows rows place_name res →
      h.hist.length ≤ 3 ∧ pyIsDigitStr u = true) ∧
    (∀ r u h, parseRow r place_name res = some (u, h) →
      r.umaban = some u ∧ pyIsDigitStr u = true ∧
      h.hist.length = ([r.z1, r.z2, r.z3].filterMap id).length ∧
      h.hist.length ≤ 3) ∧
    (∀ l1 l2, parse_rows (l1 ++ RowHtml.raises :: l2) place_name res =
      parse_rows (l1 ++ l2) place_name res) ∧
    (∀ z fb, (_parse_one_history (some z) fb res).ymd ≠ []) := by
  refine ⟨?_, ?_, ?_, ?_⟩
  · intro u h hm
    exact parse_rows_invariant place_name res rows [] (by intro u2 h2 c; cases c) u h hm
  · intro r u h hp
    exact parseRow_shape r place_name res u h hp
  · intro l1 l2
    unfold parse_rows
    rw [List.foldl_append, List.foldl_cons, List.foldl_append]
    rfl
  · intro z fb
    exact history_ymd_ne_nil z fb res

/-- Witness for C4 (amended) at a concrete one-row table and concrete
skip-raises lists. -/
theorem C4_witness :
    ((⟨("不明").data, [], [], ("-").data, [], ("【騎手】P:不明 前P:- 相性:-").data,
        [], [], []⟩ : Horse).hist.length ≤ 3 ∧
      pyIsDigitStr (("7").data) = true) ∧
    parse_rows [RowHtml.raises] (("大井").data) ⟨[], [], []⟩ =
      parse_rows [] (("大井").data) ⟨[], [], []⟩ := by
  constructor
  · exact (C4_parse_detail [RowHtml.ok ⟨some (("7").data), none, none, none,
      none, none, none⟩] (("大井").data) ⟨[], [], []⟩).1
      (("7").data)
      ⟨("不明").data, [], [], ("-").data, [], ("【騎手】P:不明 前P:- 相性:-").data,
        [], [], []⟩ (by decide)
  · exact (C4_parse_detail [] (("大井").data) ⟨[], [], []⟩).2.2.1 [] []

/-- Claim C5: the prompt is exactly the header line, a blank line, and the
per-horse blocks joined by blank lines; the blocks are in ascending numeric
umaban order and enumerate exactly the parsed horses; each block is the
umaban/name/jockey/trainer line, the stable comment, the training comment,
the power line, the 【近走】 marker and the history strings, in that order. -/
theorem C5_buildPrompt (r_num : Nat) (meta : NkMeta)
    (horses : List (List Char × Horse))
    (danwa cyokyo : List (List Char × List Char)) :
    buildPrompt r_num meta horses danwa cyokyo =
      promptHeader r_num meta ++ ("\n\n").data ++
        joinWith (("\n\n").data)
          ((sortedUmaban horses).map (fun u =>
            horseBlock u ((dictFind horses u).getD defaultHorse) danwa cyokyo)) ∧
    List.Sorted (fun a b => digitsToNat a ≤ digitsToNat b) (sortedUmaban horses) ∧
    List.Perm (sortedUmaban horses) (horses.map (fun e => e.1)) ∧
    (∀ u h, horseBlock u h danwa cyokyo =
      joinWith [('\n' : Char)]
        ([[('[' : Char)] ++ u ++ [(']' : Char)] ++ h.name ++ (" 騎:").data ++
            h.jockey ++ (" 師:").data ++ h.trainer,
          ("話:").data ++ (dictFind danwa u).getD (("なし").data),
          ("調:").data ++ (dictFind cyokyo u).getD (("データなし").data),
          h.display_power,
          ("【近走】").data] ++ h.hist)) := by
  refine ⟨rfl, ?_, ?_, fun u h => rfl⟩
  · haveI ht : IsTotal (List Char) (fun a b => digitsToNat a ≤ digitsToNat b) :=
      ⟨fun a b => Nat.le_total _ _⟩
    haveI htr : IsTrans (List Char) (fun a b => digitsToNat a ≤ digitsToNat b) :=
      ⟨fun a b c hab hbc => Nat.le_trans hab hbc⟩
    exact List.sorted_insertionSort _ _
  · exact List.perm_insertionSort _ _

theorem statusEv_ok (d : List Char) :
    ((statusEv d).type = ("status").data ∨ (statusEv d).type = ("result").data ∨
      (statusEv d).type = ("error").data) ∧
    ((statusEv d).type = ("result").data → (statusEv d).race_num.isSome = true) := by
  refine ⟨Or.inl rfl, fun h => ?_⟩
  simp only [statusEv] at h
  exact absurd h (by decide)

theorem errorEv_ok (d : List Char) :
    ((errorEv d).type = ("status").data ∨ (errorEv d).type = ("result").data ∨
      (errorEv d).type = ("error").data) ∧
    ((errorEv d).type = ("result").data → (errorEv d).race_num.isSome = true) := by
  refine ⟨Or.inr (Or.inr rfl), fun h => ?_⟩
  simp only [errorEv] at h
  exact absurd h (by decide)

theorem resultEv_ok (r : Nat) (d : List Char) :
    ((resultEv r d).type = ("status").data ∨ (resultEv r d).type = ("result").data ∨
      (resultEv r d).type = ("error").data) ∧
    ((resultEv r d).type = ("result").data → (resultEv r d).race_num.isSome = true) :=
  ⟨Or.inr (Or.inl rfl), fun _ => rfl⟩

theorem raceAttemptGo_ok (att : Nat → RaceAttempt) (place_name : List Char)
    (res : Resources) (apiKey mode year month day nk_place_code : List Char)
    (kai nichi r_num : Nat) :
    ∀ k idx e, e ∈ raceAttemptGo att place_name res apiKey mode year month day
        nk_place_code kai nichi r_num idx k →
      (e.type = ("status").data ∨ e.type = ("result").data ∨
        e.type = ("error").data) ∧
      (e.type = ("result").data → e.race_num.isSome = true) := by
  intro k
  induction k with
  | zero => intro idx e he; cases he
  | succ k ih =>
    intro idx e he
    rw [raceAttemptGo] at he
    dsimp only at he
    cases hatt : att idx with
    | raises msg =>
      rw [hatt] at he
      dsimp only at he
      by_cases hrem : k = 0
      · rw [if_pos hrem] at he
        rcases List.mem_singleton.mp he with rfl
        exact errorEv_ok _
      · rw [if_neg hrem] at he
        rcases List.mem_cons.mp he with rfl | he2
        · exact statusEv_ok _
        · exact ih (idx + 1) e he2
    | page danwa cyokyo pg dify matchup =>
      rw [hatt] at he
      dsimp only at he
      by_cases hemp : (parse_nankankeiba_detail pg place_name res).horses.isEmpty = true
      · rw [if_pos hemp] at he
        by_cases hrem : k = 0
        · rw [if_pos hrem] at he
          rcases List.mem_singleton.mp he with rfl
          exact errorEv_ok _
        · rw [if_neg hrem] at he
          exact ih (idx + 1) e he
      · rw [if_neg hemp] at he
        by_cases hmode : mode = ("raw").data
        · rw [if_pos hmode] at he
          rcases List.mem_singleton.mp he with rfl
          exact resultEv_ok _ _
        · rw [if_neg hmode] at he
          rcases List.mem_cons.mp he with rfl | he2
          · exact statusEv_ok _
          · rcases List.mem_singleton.mp he2 with rfl
            exact resultEv_ok _ _

/-- Claim C7: every yielded event is a dict with a `data` field whose `type`
is one of status/result/error; every result event carries a `race_num`; and
after the meeting-identification-failure error or the race-list-timeout
error the generator yields nothing further (those errors end the trace). -/
theorem C7_run_races_iter (env : RunEnv) (year month day place_code : List Char)
    (target_races : List Nat) (mode : List Char) :
    (∀ e ∈ run_races_iter env year month day place_code target_races mode,
      (e.type = ("status").data ∨ e.type = ("result").data ∨
        e.type = ("error").data) ∧
      (e.type = ("result").data → e.race_num.isSome = true)) ∧
    ((env.kaiNichi.1).getD 0 = 0 →
      run_races_iter env year month day place_code target_races mode =
        [statusEv (("📅 開催特定中 (").data ++
            ((dictFind kb_input_map place_code).getD (("地方").data)) ++ (")...").data),
         errorEv (("開催特定失敗（日付・場所を確認してください）").data)]) ∧
    ((env.kaiNichi.1).getD 0 ≠ 0 → env.programListOk = false →
      run_races_iter env year month day place_code target_races mode =
        [statusEv (("📅 開催特定中 (").data ++
            ((dictFind kb_input_map place_code).getD (("地方").data)) ++ (")...").data),
         statusEv (("✅ ").data ++
            ((dictFind kb_input_map place_code).getD (("地方").data)) ++ (" 第").data ++
            natToDec ((env.kaiNichi.1).getD 0) ++ ("回 ").data ++
            natToDec ((env.kaiNichi.2).getD 0) ++ ("日目").data),
         statusEv (("🔑 競馬ブック ログイン中...").data),
         errorEv (("レース一覧の取得にタイムアウトしました").data)]) := by
  refine ⟨?_, ?_, ?_⟩
  · intro e he
    unfold run_races_iter at he
    try dsimp only at he
    split at he
    · rcases List.mem_cons.mp he with rfl | he2
      · exact statusEv_ok _
      · rcases List.mem_singleton.mp he2 with rfl
        exact errorEv_ok _
    · try dsimp only at he
      split at he
      · rcases List.mem_cons.mp he with rfl | he2
        · exact statusEv_ok _
        · rcases List.mem_cons.mp he2 with rfl | he3
          · exact statusEv_ok _
          · rcases List.mem_cons.mp he3 with rfl | he4
            · exact statusEv_ok _
            · rcases List.mem_singleton.mp he4 with rfl
              exact errorEv_ok _
      · try dsimp only at he
        split at he
        · rcases List.mem_cons.mp he with rfl | he2
          · exact statusEv_ok _
          · rcases List.mem_cons.mp he2 with rfl | he3
            · exact statusEv_ok _
            · rcases List.mem_cons.mp he3 with rfl | he4
              · exact statusEv_ok _
              · rcases List.mem_singleton.mp he4 with rfl
                exact errorEv_ok _
        · rcases List.mem_append.mp he with he2 | he2
          · rcases List.mem_cons.mp he2 with rfl | he3
            · exact statusEv_ok _
            · rcases List.mem_cons.mp he3 with rfl | he4
              · exact statusEv_ok _
              · rcases List.mem_singleton.mp he4 with rfl
                exact statusEv_ok _
          · rcases List.mem_flatMap.mp he2 with ⟨r_num, hr, hm⟩
            rcases List.mem_cons.mp hm with rfl | hm2
            · exact statusEv_ok _
            · exact raceAttemptGo_ok _ _ _ _ _ _ _ _ _ _ _ _ 3 0 e hm2
  · intro hkai
    unfold run_races_iter
    try dsimp only
    rw [if_pos hkai]
  · intro hkai hpl
    unfold run_races_iter
    try dsimp only
    rw [if_neg hkai]
    try dsimp only
    rw [if_pos (by simp [hpl])]

/-- Witness for C7: a concrete environment where meeting identification
fails, giving exactly the status and terminal error events. -/
theorem C7_witness :
    run_races_iter ⟨⟨[], [], []⟩, [], (none, none), true, [],
        fun _ _ => RaceAttempt.raises []⟩ (("2025").data) (("10").data)
        (("05").data) (("10").data) [] (("raw").data) =
      [statusEv (("📅 開催特定中 (").data ++ ("大井").data ++ (")...").data),
       errorEv (("開催特定失敗（日付・場所を確認してください）").data)] := by
  have h := (C7_run_races_iter ⟨⟨[], [], []⟩, [], (none, none), true, [],
    fun _ _ => RaceAttempt.raises []⟩ (("2025").data) (("10").data) (("05").data)
    (("10").data) [] (("raw").data)).2.1 (by decide)
  rw [h]
  decide
